import Mathlib

/-!
Verification development for the incremental contact-collection pipeline in
find_consultancy_contacts.py.

The embedding is shallow: each Python construct becomes an executable Lean
definition. Remote HTTP traffic is abstracted as input streams of outcomes
(one stream per logical call, indexed by call order); printing and the
time.sleep pauses have no observable effect on the data flow, except that the
failover loop records how many pauses it performed (the sleeps counter) since
one claim distinguishes the paused retry from the unpaused one. Python sets
of strings become Finset String, Python dicts read through .get with defaults
become records of the accessed fields.
-/

/-- Minimal JSON value model, used for the persisted search-cache artifact. -/
inductive JsonVal where
  | null : JsonVal
  | bool (b : Bool) : JsonVal
  | num (n : Int) : JsonVal
  | str (s : String) : JsonVal
  | arr (xs : List JsonVal) : JsonVal
  | obj (kvs : List (String × JsonVal)) : JsonVal

/-- Contact record, the nine columns written to and read from the artifact. -/
structure Contact where
  consultancy : String
  first_name : String
  last_name : String
  email : String
  job_title : String
  linkedin_url : String
  phone : String
  source : String
  notes : String
deriving DecidableEq, Repr

/-- Organization entry of the static CONSULTANCIES table. -/
structure Consultancy where
  name : String
  domain : String
  careers_url : String
deriving DecidableEq, Repr

/-- The static target list from the source (20 firms). -/
def CONSULTANCIES : List Consultancy := [
  ⟨"Accenture", "accenture.com", "https://www.accenture.com/us-en/careers"⟩,
  ⟨"Deloitte", "deloitte.com", "https://www2.deloitte.com/us/en/careers.html"⟩,
  ⟨"McKinsey & Company", "mckinsey.com", "https://www.mckinsey.com/careers"⟩,
  ⟨"Slalom Consulting", "slalom.com", "https://www.slalom.com/us/en/careers"⟩,
  ⟨"Cognizant", "cognizant.com", "https://careers.cognizant.com"⟩,
  ⟨"Capgemini", "capgemini.com", "https://www.capgemini.com/careers/"⟩,
  ⟨"Infosys", "infosys.com", "https://www.infosys.com/careers/"⟩,
  ⟨"KPMG", "kpmg.com", "https://kpmg.com/us/en/careers.html"⟩,
  ⟨"EY (Ernst & Young)", "ey.com", "https://www.ey.com/en_us/careers"⟩,
  ⟨"Wipro", "wipro.com", "https://careers.wipro.com/"⟩,
  ⟨"TCS (Tata Consultancy Services)", "tcs.com", "https://www.tcs.com/careers"⟩,
  ⟨"PwC", "pwc.com", "https://www.pwc.com/us/en/careers.html"⟩,
  ⟨"Booz Allen Hamilton", "bah.com", "https://www.boozallen.com/careers.html"⟩,
  ⟨"HCL Technologies", "hcltech.com", "https://www.hcltech.com/careers"⟩,
  ⟨"West Monroe", "westmonroe.com", "https://www.westmonroe.com/careers"⟩,
  ⟨"IBM Consulting", "ibm.com", "https://www.ibm.com/careers"⟩,
  ⟨"Thoughtworks", "thoughtworks.com", "https://www.thoughtworks.com/careers"⟩,
  ⟨"NTT DATA", "nttdata.com", "https://www.nttdata.com/global/en/careers"⟩,
  ⟨"CGI Group", "cgi.com", "https://www.cgi.com/en/careers"⟩,
  ⟨"Tech Mahindra", "techmahindra.com", "https://careers.techmahindra.com/"⟩]

/-- Python str.strip: drop leading and trailing whitespace. Implemented over
the character list so that it evaluates inside the kernel (the builtin
String.trim does not reduce); restricted to ASCII whitespace. -/
def pyStrip (s : String) : String :=
  ⟨((s.data.dropWhile Char.isWhitespace).reverse.dropWhile Char.isWhitespace).reverse⟩

def pyLower (s : String) : String :=
  ⟨s.data.map Char.toLower⟩

/-- collect_keys_from_env: reads PREFIX_1 .. PREFIX_20 then the bare PREFIX.
The environment is modelled as a total function returning the empty string
for unset variables, matching os.environ.get with default "". -/
def collect_keys_from_env (env : String → String) (pfx : String) : List String :=
  let keys := (List.range' 1 20).foldl
    (fun keys i =>
      let val := pyStrip (env (pfx ++ "_" ++ toString i))
      if val ≠ "" ∧ val ∉ keys then keys ++ [val] else keys) []
  let single := pyStrip (env pfx)
  if single ≠ "" ∧ single ∉ keys then keys ++ [single] else keys

/-- SearchCache state: the in-memory set plus the backing storage.
Storage is none when the file does not exist, some none when the file exists
but its content is not parsable JSON, and some (some j) when it parses to j. -/
structure SearchCache where
  completed : Finset String
  storage : Option (Option JsonVal)

/-- Extract a list of strings from a JSON array body; none when some entry
is not a string. -/
def allStrings : List JsonVal → Option (List String)
  | [] => some []
  | .str s :: rest => (allStrings rest).map (fun ss => s :: ss)
  | _ => none

/-- SearchCache._load, with Python exceptions surfaced as Except.error.
The except clause of the source catches only JSONDecodeError and KeyError:
a JSON value that is not an object makes data.get raise AttributeError, and
a completed_searches value that is not iterable makes set raise TypeError;
neither is caught. Iterating a string value yields its characters, which is
modelled faithfully. Lists containing non-string hashable values would load
as a Python set of non-strings, which this string-set model cannot
represent; that arm is conservatively reported as an error and no theorem
below depends on it. -/
def SearchCache.load : Option (Option JsonVal) → Except String (Finset String)
  | none => .ok ∅
  | some none => .ok ∅
  | some (some (.obj kvs)) =>
      match kvs.lookup "completed_searches" with
      | none => .ok ∅
      | some (.arr xs) =>
          match allStrings xs with
          | some ss => .ok ss.toFinset
          | none => .error "non-string entries (outside the string-set model)"
      | some (.str s) => .ok ((s.toList.map (fun c => String.mk [c])).toFinset)
      | some _ => .error "TypeError: completed_searches value is not iterable"
  | some (some _) => .error "AttributeError: value has no attribute get"

/-- SearchCache construction: runs _load over the storage; an uncaught
exception in _load propagates out of the constructor. -/
def SearchCache.init (st : Option (Option JsonVal)) : Except String SearchCache :=
  (SearchCache.load st).map (fun s => ⟨s, st⟩)

/-- The persisted artifact: a JSON object holding the sorted key list. -/
def SearchCache.saveJson (completed : Finset String) : JsonVal :=
  .obj [("completed_searches", .arr ((completed.sort (· ≤ ·)).map .str))]

/-- is_done: membership test. -/
def SearchCache.is_done (c : SearchCache) (key : String) : Bool :=
  decide (key ∈ c.completed)

/-- mark_done: adds the key and immediately persists the full set. -/
def SearchCache.mark_done (c : SearchCache) (key : String) : SearchCache :=
  let comp := insert key c.completed
  ⟨comp, some (some (SearchCache.saveJson comp))⟩

/-- clear: empties the set and unlinks the backing file. -/
def SearchCache.clear (_c : SearchCache) : SearchCache :=
  ⟨∅, none⟩

/-- KeyPool state: ordered credential list, exhausted indices, pointer. -/
structure KeyPool where
  service_name : String
  keys : List String
  exhausted : Finset Nat
  current_idx : Nat
deriving DecidableEq

def KeyPool.total (p : KeyPool) : Nat := p.keys.length

def KeyPool.active_count (p : KeyPool) : Nat := p.total - p.exhausted.card

def KeyPool.all_exhausted (p : KeyPool) : Bool := decide (p.total ≤ p.exhausted.card)

/-- The scan loop of _rotate: advances the pointer up to n times, stopping at
the first non-exhausted index; the pointer mutation persists even on failure,
exactly as in the source loop. -/
def KeyPool.rotateAux : KeyPool → Nat → KeyPool × Bool
  | p, 0 => (p, false)
  | p, n + 1 =>
    let idx := (p.current_idx + 1) % p.total
    let p' := { p with current_idx := idx }
    if idx ∈ p.exhausted then p'.rotateAux n else (p', true)

/-- _rotate: scans at most total positions. -/
def KeyPool.rotate (p : KeyPool) : KeyPool × Bool := p.rotateAux p.total

/-- current_key: rotates away from an exhausted pointer, returns none when
rotation finds nothing. The out-of-range index read cannot occur for pools
produced by the constructor and is given the empty-string default. -/
def KeyPool.current_key (p : KeyPool) : KeyPool × Option String :=
  if p.current_idx ∈ p.exhausted then
    let (p', ok) := p.rotate
    if ok then (p', some (p'.keys.getD p'.current_idx "")) else (p', none)
  else (p, some (p.keys.getD p.current_idx ""))

/-- mark_exhausted: inserts the pointed-to index, then rotates unless the
pool became fully exhausted; returns whether an active credential remains. -/
def KeyPool.mark_exhausted (p : KeyPool) : KeyPool × Bool :=
  let p₁ := { p with exhausted := insert p.current_idx p.exhausted }
  if p₁.all_exhausted then (p₁, false)
  else p₁.rotate

/-- Well-formedness delivered by the KeyPool constructor (nonempty key list,
index in range, exhausted indices in range). -/
structure KeyPool.WF (p : KeyPool) : Prop where
  ne : p.keys ≠ []
  idx_lt : p.current_idx < p.keys.length
  sub : p.exhausted ⊆ Finset.range p.keys.length

/-- One HTTP attempt as seen by the failover loop: either a status code with
an optionally parsable JSON body, or a network-level failure raised by the
requests call. A body of none models a response whose body fails to parse
(the JSONDecodeError is a RequestException and is caught). -/
inductive HttpOutcome (β : Type) where
  | status (code : Nat) (body : Option β) : HttpOutcome β
  | netErr : HttpOutcome β
deriving DecidableEq

def EXHAUSTION_CODES : Finset Nat := {429, 403}

/-- Observable outcome of one _request_with_failover call: the parsed body
(none models the empty-dict failure result), the final pool, the number of
HTTP attempts issued, and the number of time.sleep pauses performed. -/
structure FailoverResult (β : Type) where
  result : Option β
  pool : KeyPool
  attempts : Nat
  sleeps : Nat
deriving DecidableEq

/-- Body of _request_with_failover, identical in ApolloClient and
HunterClient. att i is the outcome of the i-th HTTP attempt of this logical
call; each retry consumes the head of the stream and recurses on its tail.
The Nat fuel argument bounds the loop; the termination theorem below shows
fuel of pool size plus one always suffices, so the out-of-fuel value none is
never produced by the wrapper. raise_for_status raises exactly for status
codes in 400..599; its HTTPError and any RequestException (including a body
that fails to parse as JSON) are caught and yield the empty result. -/
def request_with_failover_go {β : Type} :
    (Nat → HttpOutcome β) → Nat → KeyPool → Option (FailoverResult β)
  | _, 0, _ => none
  | att, fuel + 1, pool =>
    if pool.all_exhausted then some ⟨none, pool, 0, 0⟩
    else
      match pool.current_key with
      | (pool₁, none) => some ⟨none, pool₁, 0, 0⟩
      | (pool₁, some _) =>
        match att 0 with
        | .netErr => some ⟨none, pool₁, 1, 0⟩
        | .status c body =>
          if c ∈ EXHAUSTION_CODES then
            match pool₁.mark_exhausted with
            | (pool₂, false) => some ⟨none, pool₂, 1, 0⟩
            | (pool₂, true) =>
              (request_with_failover_go (fun n => att (n + 1)) fuel pool₂).map
                (fun r => ⟨r.result, r.pool, r.attempts + 1, r.sleeps + 1⟩)
          else if c = 401 then
            match pool₁.mark_exhausted with
            | (pool₂, false) => some ⟨none, pool₂, 1, 0⟩
            | (pool₂, true) =>
              (request_with_failover_go (fun n => att (n + 1)) fuel pool₂).map
                (fun r => ⟨r.result, r.pool, r.attempts + 1, r.sleeps⟩)
          else if 400 ≤ c ∧ c < 600 then some ⟨none, pool₁, 1, 0⟩
          else
            match body with
            | some b => some ⟨some b, pool₁, 1, 0⟩
            | none => some ⟨none, pool₁, 1, 0⟩

/-- The failover request loop with sufficient fuel (total wrapper). -/
def request_with_failover {β : Type} (pool : KeyPool) (att : Nat → HttpOutcome β) :
    FailoverResult β :=
  (request_with_failover_go att (pool.keys.length + 1) pool).getD ⟨none, pool, 0, 0⟩

/-- One Apollo search-result person, the fields read through .get with
string defaults at lines 657-661 of the source. -/
structure ApolloPerson where
  first_name : String
  last_name : String
  title : String
  linkedin_url : String
  email : String
deriving DecidableEq, Repr

/-- Parsed body of an Apollo people search (the people field). -/
structure ApolloSearchBody where
  people : List ApolloPerson
deriving DecidableEq, Repr

/-- Fields read from the person value of an enrichment response. -/
structure EnrichPersonData where
  email : String
  linkedin_url : String
deriving DecidableEq, Repr

/-- Parsed body of an Apollo enrichment response; person is none when the
person key is missing or its dict is empty (Python falsiness). -/
structure ApolloEnrichBody where
  person : Option EnrichPersonData
deriving DecidableEq, Repr

/-- One Hunter email entry, the fields read at lines 772-778. -/
structure HunterEntry where
  value : String
  first_name : String
  last_name : String
  position : String
  linkedin : String
  phone_number : String
  confidence : Int
deriving DecidableEq, Repr

/-- Parsed body of a Hunter domain search: the data.emails list. -/
structure HunterBody where
  emails : List HunterEntry
deriving DecidableEq, Repr

/-- The remote side of both services, as response streams: the first index
is the per-service logical-call counter (in issue order), the second the
attempt index within that call handed to the failover loop. Request
parameters (titles, locations, domains, departments) select responses only
through call order, so they are not repeated here. -/
structure RemoteEnv where
  apolloSearch : Nat → Nat → HttpOutcome ApolloSearchBody
  apolloEnrich : Nat → Nat → HttpOutcome ApolloEnrichBody
  hunterSearch : Nat → Nat → HttpOutcome HunterBody

/-- Mutable run state of collect_contacts. The three trailing counters index
into the RemoteEnv streams; enrichTrace is an observational log of the
per-person enrichment calls issued (the name keys passed to enrich_person at
lines 675 and 735), so that never-enriched properties are statable. -/
structure CollectState where
  contacts : List Contact
  seen : Finset String
  enriched : Finset String
  cache : SearchCache
  apolloPool : Option KeyPool
  hunterPool : Option KeyPool
  new_contacts : Nat
  skipped_searches : Nat
  skipped_enrichments : Nat
  apolloSearchIdx : Nat
  apolloEnrichIdx : Nat
  hunterIdx : Nat
  enrichTrace : List String

/-- apollo.pool.all_exhausted as read by the collector (true when no Apollo
client is configured, in which case the reading branch is unreachable). -/
def CollectState.apolloExh (st : CollectState) : Bool :=
  (st.apolloPool.map KeyPool.all_exhausted).getD true

/-- hunter.pool.all_exhausted as read by the collector. -/
def CollectState.hunterExh (st : CollectState) : Bool :=
  (st.hunterPool.map KeyPool.all_exhausted).getD true

/-- apollo.search_people: one failover call against the Apollo pool,
consuming the next apolloSearch stream. -/
def apolloSearchCall (env : RemoteEnv) (st : CollectState) :
    Option ApolloSearchBody × CollectState :=
  match st.apolloPool with
  | none => (none, st)
  | some pool =>
    let r := request_with_failover pool (env.apolloSearch st.apolloSearchIdx)
    (r.result, { st with apolloPool := some r.pool, apolloSearchIdx := st.apolloSearchIdx + 1 })

/-- apollo.enrich_person: one failover call against the Apollo pool,
consuming the next apolloEnrich stream. -/
def apolloEnrichCall (env : RemoteEnv) (st : CollectState) :
    Option ApolloEnrichBody × CollectState :=
  match st.apolloPool with
  | none => (none, st)
  | some pool =>
    let r := request_with_failover pool (env.apolloEnrich st.apolloEnrichIdx)
    (r.result, { st with apolloPool := some r.pool, apolloEnrichIdx := st.apolloEnrichIdx + 1 })

/-- hunter.domain_search and domain_search_recruiting: one failover call
against the Hunter pool, consuming the next hunterSearch stream. -/
def hunterSearchCall (env : RemoteEnv) (st : CollectState) :
    Option HunterBody × CollectState :=
  match st.hunterPool with
  | none => (none, st)
  | some pool =>
    let r := request_with_failover pool (env.hunterSearch st.hunterIdx)
    (r.result, { st with hunterPool := some r.pool, hunterIdx := st.hunterIdx + 1 })

/-- The enrichment branch of the per-person Apollo block (lines 669-683 and
729-743): returns the possibly updated email and linkedin values and state.
Never touches contacts or seen; records the issued call in enrichTrace. -/
def apolloEnrichPhase (env : RemoteEnv) (enrich_apollo : Bool)
    (name_key first last email linkedin : String) (st : CollectState) :
    String × String × CollectState :=
  if enrich_apollo = true ∧ email = "" ∧ first ≠ "" ∧ last ≠ "" ∧ st.apolloExh = false then
    if name_key ∈ st.enriched then
      (email, linkedin, { st with skipped_enrichments := st.skipped_enrichments + 1 })
    else
      match apolloEnrichCall env { st with enrichTrace := st.enrichTrace ++ [name_key] } with
      | (some body, st₂) =>
        match body.person with
        | some pd =>
          (pd.email, (if linkedin = "" then pd.linkedin_url else linkedin),
            if pd.email ≠ "" then { st₂ with enriched := insert name_key st₂.enriched }
            else st₂)
        | none => (email, linkedin, st₂)
      | (none, st₂) => (email, linkedin, st₂)
  else (email, linkedin, st)

/-- The per-person Apollo block, shared verbatim between the narrow-title
search (lines 656-696) and the broad search (lines 717-756); name is the
firm name, domain the firm domain passed to enrich_person. -/
def processApolloPerson (env : RemoteEnv) (enrich_apollo : Bool)
    (name _domain : String) (st : CollectState) (person : ApolloPerson) : CollectState :=
  let name_key := pyLower (person.first_name ++ "|" ++ person.last_name ++ "|" ++ name)
  if name_key ∈ st.seen then st
  else
    match apolloEnrichPhase env enrich_apollo name_key person.first_name person.last_name
        person.email person.linkedin_url { st with seen := insert name_key st.seen } with
    | (email, linkedin, st₁) =>
      { st₁ with
        contacts := st₁.contacts ++
          [{ consultancy := name, first_name := person.first_name,
             last_name := person.last_name, email := email, job_title := person.title,
             linkedin_url := linkedin, phone := "", source := "Apollo.io", notes := "" }],
        new_contacts := st₁.new_contacts + 1 }

/-- The mark-done step of the narrow-title shape (line 699): marked when the
pool is not fully exhausted at completion or some result was returned. -/
def apolloTitlesMark (domain : String) (people : List ApolloPerson)
    (st : CollectState) : CollectState :=
  if st.apolloExh = false ∨ people ≠ [] then
    { st with cache := st.cache.mark_done ("apollo_search|" ++ domain ++ "|titles") }
  else st

/-- The mark-done step of the broad shape (line 758): marked only when the
pool is not fully exhausted at completion; results are not consulted. -/
def apolloBroadMark (domain : String) (st : CollectState) : CollectState :=
  if st.apolloExh = false then
    { st with cache := st.cache.mark_done ("apollo_search|" ++ domain ++ "|broad") }
  else st

/-- The mark-done step of the Hunter shapes (lines 819, 836, 854). -/
def hunterMark (domain dept : String) (emails : List HunterEntry)
    (st : CollectState) : CollectState :=
  if st.hunterExh = false ∨ emails ≠ [] then
    { st with cache := st.cache.mark_done ("hunter|" ++ domain ++ "|" ++ dept) }
  else st

/-- The narrow-title Apollo search shape of one firm (lines 640-702). -/
def apolloTitlesShape (env : RemoteEnv) (enrich_apollo : Bool)
    (name domain : String) (st : CollectState) : CollectState :=
  if st.cache.is_done ("apollo_search|" ++ domain ++ "|titles") then
    { st with skipped_searches := st.skipped_searches + 1 }
  else
    match apolloSearchCall env st with
    | (result, st₁) =>
      apolloTitlesMark domain ((result.map ApolloSearchBody.people).getD [])
        (((result.map ApolloSearchBody.people).getD []).foldl
          (processApolloPerson env enrich_apollo name domain) st₁)

/-- The broad Apollo search shape of one firm (lines 705-760). Note the
mark-done guard at line 758 checks only pool exhaustion, unlike the
narrow-title guard at line 699. -/
def apolloBroadShape (env : RemoteEnv) (enrich_apollo : Bool)
    (name domain : String) (st : CollectState) : CollectState :=
  if st.cache.is_done ("apollo_search|" ++ domain ++ "|broad") then
    { st with skipped_searches := st.skipped_searches + 1 }
  else if st.apolloExh = false then
    match apolloSearchCall env st with
    | (result, st₁) =>
      apolloBroadMark domain
        (((result.map ApolloSearchBody.people).getD []).foldl
          (processApolloPerson env enrich_apollo name domain) st₁)
  else st

/-- The nested process_hunter_emails body for one entry (lines 771-805). -/
def processHunterEntry (name dept_label : String) (st : CollectState)
    (entry : HunterEntry) : CollectState :=
  let email := entry.value
  let dedup_key_email := if email ≠ "" then pyLower email else ""
  let name_key := pyLower (entry.first_name ++ "|" ++ entry.last_name ++ "|" ++ name)
  if dedup_key_email ∈ st.seen ∨ name_key ∈ st.seen then st
  else
    let st₁ :=
      if dedup_key_email ≠ "" then { st with seen := insert dedup_key_email st.seen } else st
    let st₂ := { st₁ with seen := insert name_key st₁.seen }
    let st₃ :=
      if email ≠ "" then { st₂ with enriched := insert name_key st₂.enriched } else st₂
    { st₃ with
      contacts := st₃.contacts ++
        [{ consultancy := name, first_name := entry.first_name,
           last_name := entry.last_name, email := email, job_title := entry.position,
           linkedin_url := entry.linkedin, phone := entry.phone_number,
           source := "Hunter.io",
           notes := "Confidence: " ++ toString entry.confidence ++ "%" ++
             (if dept_label ≠ "" then "; Dept: " ++ dept_label else "") }],
      new_contacts := st₃.new_contacts + 1 }

/-- The Hunter IT-department shape of one firm (lines 808-821). -/
def hunterItShape (env : RemoteEnv) (name domain : String) (st : CollectState) :
    CollectState :=
  if st.cache.is_done ("hunter|" ++ domain ++ "|it") then
    { st with skipped_searches := st.skipped_searches + 1 }
  else
    match hunterSearchCall env st with
    | (result, st₁) =>
      hunterMark domain "it" ((result.map HunterBody.emails).getD [])
        (((result.map HunterBody.emails).getD []).foldl
          (processHunterEntry name "IT") st₁)

/-- The Hunter HR shape of one firm (lines 825-838). -/
def hunterHrShape (env : RemoteEnv) (name domain : String) (st : CollectState) :
    CollectState :=
  if st.cache.is_done ("hunter|" ++ domain ++ "|hr") then
    { st with skipped_searches := st.skipped_searches + 1 }
  else if st.hunterExh = false then
    match hunterSearchCall env st with
    | (result, st₁) =>
      hunterMark domain "hr" ((result.map HunterBody.emails).getD [])
        (((result.map HunterBody.emails).getD []).foldl
          (processHunterEntry name "HR/Recruiting") st₁)
  else st

/-- The Hunter management shape of one firm (lines 842-856). -/
def hunterMgmtShape (env : RemoteEnv) (name domain : String) (st : CollectState) :
    CollectState :=
  if st.cache.is_done ("hunter|" ++ domain ++ "|management") then
    { st with skipped_searches := st.skipped_searches + 1 }
  else if st.hunterExh = false then
    match hunterSearchCall env st with
    | (result, st₁) =>
      hunterMark domain "management" ((result.map HunterBody.emails).getD [])
        (((result.map HunterBody.emails).getD []).foldl
          (processHunterEntry name "Management") st₁)
  else st

/-- The Apollo section of one firm iteration (lines 637-763): both shapes,
guarded by client presence and pool exhaustion. -/
def apolloSection (env : RemoteEnv) (enrich_apollo : Bool) (name domain : String)
    (st : CollectState) : CollectState :=
  if st.apolloPool.isSome ∧ st.apolloExh = false then
    apolloBroadShape env enrich_apollo name domain
      (apolloTitlesShape env enrich_apollo name domain st)
  else st

/-- The Hunter section of one firm iteration (lines 766-859): the IT shape
always, the HR and management shapes unless hunter_it_only. -/
def hunterSection (env : RemoteEnv) (hunter_it_only : Bool) (name domain : String)
    (st : CollectState) : CollectState :=
  if st.hunterPool.isSome ∧ st.hunterExh = false then
    if hunter_it_only = false then
      hunterMgmtShape env name domain
        (hunterHrShape env name domain (hunterItShape env name domain st))
    else hunterItShape env name domain st
  else st

/-- One iteration of the main firm loop (lines 629-859): the Apollo section
with both shapes, then the Hunter section with up to three shapes. -/
def collectFirm (env : RemoteEnv) (enrich_apollo hunter_it_only : Bool)
    (st : CollectState) (firm : Consultancy) : CollectState :=
  hunterSection env hunter_it_only firm.name firm.domain
    (apolloSection env enrich_apollo firm.name firm.domain st)

/-- collect_contacts, returning the full final state. -/
def collectContactsRun (env : RemoteEnv) (apollo_pool hunter_pool : Option KeyPool)
    (enrich_apollo : Bool) (existing_contacts : List Contact)
    (seen enriched : Finset String) (cache : SearchCache)
    (hunter_it_only : Bool) : CollectState :=
  CONSULTANCIES.foldl (collectFirm env enrich_apollo hunter_it_only)
    { contacts := existing_contacts, seen := seen, enriched := enriched, cache := cache,
      apolloPool := apollo_pool, hunterPool := hunter_pool,
      new_contacts := 0, skipped_searches := 0, skipped_enrichments := 0,
      apolloSearchIdx := 0, apolloEnrichIdx := 0, hunterIdx := 0, enrichTrace := [] }

/-- collect_contacts as in the source: the merged contact list. -/
def collect_contacts (env : RemoteEnv) (apollo_pool hunter_pool : Option KeyPool)
    (enrich_apollo : Bool) (existing_contacts : List Contact)
    (seen enriched : Finset String) (cache : SearchCache)
    (hunter_it_only : Bool) : List Contact :=
  (collectContactsRun env apollo_pool hunter_pool enrich_apollo existing_contacts
    seen enriched cache hunter_it_only).contacts

/-- A worksheet row as a list of cells; a cell is none when empty, otherwise
the str rendering of its value. -/
abbrev XlRow := List (Option String)

/-- A workbook: sheet name to data rows (iter_rows starting at row 2). -/
abbrev Workbook := List (String × List XlRow)

/-- str(vals[k] or "").strip() over the padded row. -/
def cellStr (row : XlRow) (k : Nat) : String :=
  pyStrip (((row.get? k).getD none).getD "")

/-- One iteration of the row loop of load_existing_contacts (lines 341-378). -/
def loadRow (acc : List Contact × Finset String × Finset String) (row : XlRow) :
    List Contact × Finset String × Finset String :=
  let (contacts, seen, enriched) := acc
  if row.isEmpty ∨ ((row.get? 0).getD none).getD "" = "" then acc
  else
    let consultancy := cellStr row 0
    let first_name := cellStr row 1
    let last_name := cellStr row 2
    let email := cellStr row 3
    let job_title := cellStr row 4
    let linkedin := cellStr row 5
    let phone := cellStr row 6
    let source := cellStr row 7
    let notes := cellStr row 8
    if consultancy = "" ∨ (first_name = "" ∧ last_name = "" ∧ email = "") then acc
    else
      let contact : Contact :=
        ⟨consultancy, first_name, last_name, email, job_title, linkedin, phone, source, notes⟩
      let contacts := contacts ++ [contact]
      let name_key := pyLower (first_name ++ "|" ++ last_name ++ "|" ++ consultancy)
      let seen := insert name_key seen
      if email ≠ "" then (contacts, insert (pyLower email) seen, insert name_key enriched)
      else (contacts, seen, enriched)

/-- load_existing_contacts: input is none when the file does not exist,
some none when load_workbook raises (caught), some (some wb) on success.
Any failure and a missing contacts sheet degrade to no prior data. -/
def load_existing_contacts (input : Option (Option Workbook)) :
    List Contact × Finset String × Finset String :=
  match input with
  | none => ([], ∅, ∅)
  | some none => ([], ∅, ∅)
  | some (some wb) =>
    match wb.lookup "IT CS Recruiting Contacts" with
    | none => ([], ∅, ∅)
    | some rows => rows.foldl loadRow ([], ∅, ∅)

/-- Lower-cased first|last|organization dedup key of a stored contact. -/
def nameKeyOf (c : Contact) : String :=
  pyLower (c.first_name ++ "|" ++ c.last_name ++ "|" ++ c.consultancy)

/-- The pairwise Service-B email condition: two contacts both appended by the
Hunter path with non-empty emails never share a lower-cased email. -/
def hunterEmailOk (a b : Contact) : Prop :=
  a.source = "Hunter.io" → b.source = "Hunter.io" →
  a.email ≠ "" → b.email ≠ "" → pyLower a.email ≠ pyLower b.email

/-- The dedup invariant the merge loop maintains: every stored name key is
registered in seen, stored name keys are pairwise distinct, every non-empty
Hunter email is registered in seen, and Hunter emails are pairwise distinct. -/
def StInv (st : CollectState) : Prop :=
  (∀ c ∈ st.contacts, nameKeyOf c ∈ st.seen) ∧
  st.contacts.Pairwise (fun a b => nameKeyOf a ≠ nameKeyOf b) ∧
  (∀ c ∈ st.contacts, c.source = "Hunter.io" → c.email ≠ "" → pyLower c.email ∈ st.seen) ∧
  st.contacts.Pairwise hunterEmailOk

/-- Frame relation of every collector step: contacts are only appended, the
membership sets only grow, and every newly logged enrichment call was issued
for a name key not in the enriched set at the start of the step. -/
def StepOk (st st' : CollectState) : Prop :=
  (∃ t, st'.contacts = st.contacts ++ t) ∧ st.seen ⊆ st'.seen ∧
  st.enriched ⊆ st'.enriched ∧
  (∀ k ∈ st'.enrichTrace, k ∈ st.enrichTrace ∨ k ∉ st.enriched)

/-- Combined step obligation: frame relation plus invariant preservation. -/
def StepInv (st st' : CollectState) : Prop :=
  StepOk st st' ∧ (StInv st → StInv st')

theorem KeyPool.rotateAux_keys (n : Nat) (p : KeyPool) : ((p.rotateAux n).1).keys = p.keys := by
  induction n generalizing p with
  | zero => rfl
  | succ n ih =>
    simp only [KeyPool.rotateAux]
    split
    · exact ih _
    · rfl

theorem KeyPool.rotateAux_exhausted (n : Nat) (p : KeyPool) :
    ((p.rotateAux n).1).exhausted = p.exhausted := by
  induction n generalizing p with
  | zero => rfl
  | succ n ih =>
    simp only [KeyPool.rotateAux]
    split
    · exact ih _
    · rfl

theorem KeyPool.rotateAux_service (n : Nat) (p : KeyPool) :
    ((p.rotateAux n).1).service_name = p.service_name := by
  induction n generalizing p with
  | zero => rfl
  | succ n ih =>
    simp only [KeyPool.rotateAux]
    split
    · exact ih _
    · rfl

theorem KeyPool.rotateAux_true_idx (n : Nat) (p : KeyPool)
    (h : (p.rotateAux n).2 = true) : ((p.rotateAux n).1).current_idx ∉ p.exhausted := by
  induction n generalizing p with
  | zero => simp [KeyPool.rotateAux] at h
  | succ n ih =>
    simp only [KeyPool.rotateAux] at h ⊢
    split
    · rename_i hmem
      rw [if_pos hmem] at h
      exact ih _ h
    · rename_i hmem
      exact hmem

theorem KeyPool.rotateAux_true_lt (n : Nat) (p : KeyPool) (h0 : 0 < p.total)
    (h : (p.rotateAux n).2 = true) : ((p.rotateAux n).1).current_idx < p.total := by
  induction n generalizing p with
  | zero => simp [KeyPool.rotateAux] at h
  | succ n ih =>
    simp only [KeyPool.rotateAux] at h ⊢
    split
    · rename_i hmem
      rw [if_pos hmem] at h
      exact ih _ h0 h
    · exact Nat.mod_lt _ h0

theorem KeyPool.rotateAux_succeeds (n : Nat) (p : KeyPool)
    (h : ∃ j, 1 ≤ j ∧ j ≤ n ∧ (p.current_idx + j) % p.total ∉ p.exhausted) :
    (p.rotateAux n).2 = true := by
  induction n generalizing p with
  | zero =>
    obtain ⟨j, h1, h2, _⟩ := h
    omega
  | succ n ih =>
    simp only [KeyPool.rotateAux]
    split
    · rename_i hmem
      apply ih
      obtain ⟨j, h1, h2, h3⟩ := h
      have hj1 : j ≠ 1 := by
        intro he
        rw [he] at h3
        exact h3 hmem
      refine ⟨j - 1, by omega, by omega, ?_⟩
      have hj : p.current_idx + 1 + (j - 1) = p.current_idx + j := by omega
      simpa [KeyPool.total, Nat.mod_add_mod, hj] using h3
    · rfl

theorem KeyPool.exists_rotation_target (p : KeyPool) (hlt : p.current_idx < p.total)
    (i : Nat) (hi : i < p.total) :
    ∃ j, 1 ≤ j ∧ j ≤ p.total ∧ (p.current_idx + j) % p.total = i := by
  by_cases hc : p.current_idx < i
  · refine ⟨i - p.current_idx, by omega, by omega, ?_⟩
    have : p.current_idx + (i - p.current_idx) = i := by omega
    rw [this]
    exact Nat.mod_eq_of_lt hi
  · refine ⟨i + p.total - p.current_idx, by omega, by omega, ?_⟩
    have : p.current_idx + (i + p.total - p.current_idx) = i + p.total := by omega
    rw [this, Nat.add_mod_right]
    exact Nat.mod_eq_of_lt hi

theorem KeyPool.all_exhausted_false_iff (p : KeyPool) :
    p.all_exhausted = false ↔ p.exhausted.card < p.total := by
  simp [KeyPool.all_exhausted]

theorem KeyPool.exists_nonexhausted (p : KeyPool) (_hwf : p.WF)
    (hne : p.all_exhausted = false) : ∃ i, i < p.total ∧ i ∉ p.exhausted := by
  by_contra hall
  push_neg at hall
  have hsub : Finset.range p.total ⊆ p.exhausted := by
    intro i hi
    exact hall i (Finset.mem_range.mp hi)
  have := Finset.card_le_card hsub
  rw [Finset.card_range] at this
  rw [KeyPool.all_exhausted_false_iff] at hne
  omega

theorem KeyPool.rotate_true (p : KeyPool) (hwf : p.WF) (hne : p.all_exhausted = false) :
    (p.rotate).2 = true := by
  obtain ⟨i, hi, hmem⟩ := p.exists_nonexhausted hwf hne
  obtain ⟨j, h1, h2, h3⟩ := p.exists_rotation_target hwf.idx_lt i hi
  exact p.rotateAux_succeeds p.total ⟨j, h1, h2, by rw [h3]; exact hmem⟩

theorem KeyPool.rotateAux_false_all (n : Nat) (p : KeyPool) (h0 : 0 < p.total)
    (h : ∀ i, i < p.total → i ∈ p.exhausted) : (p.rotateAux n).2 = false := by
  induction n generalizing p with
  | zero => rfl
  | succ n ih =>
    simp only [KeyPool.rotateAux]
    rw [if_pos (h _ (Nat.mod_lt _ h0))]
    exact ih _ h0 h

theorem KeyPool.current_key_exhausted_eq (p : KeyPool) :
    ((p.current_key).1).exhausted = p.exhausted := by
  unfold KeyPool.current_key
  split
  · simp only [KeyPool.rotate]
    split
    · exact p.rotateAux_exhausted p.total
    · exact p.rotateAux_exhausted p.total
  · rfl

theorem KeyPool.current_key_keys_eq (p : KeyPool) :
    ((p.current_key).1).keys = p.keys := by
  unfold KeyPool.current_key
  split
  · simp only [KeyPool.rotate]
    split
    · exact p.rotateAux_keys p.total
    · exact p.rotateAux_keys p.total
  · rfl

theorem KeyPool.current_key_some_not_exhausted (p p₁ : KeyPool) (k : String)
    (h : p.current_key = (p₁, some k)) : p₁.current_idx ∉ p₁.exhausted := by
  unfold KeyPool.current_key at h
  by_cases hmem : p.current_idx ∈ p.exhausted
  · rw [if_pos hmem] at h
    simp only [KeyPool.rotate] at h
    by_cases hok : (p.rotateAux p.total).2 = true
    · rw [if_pos hok] at h
      have hidx := p.rotateAux_true_idx p.total hok
      have hexh := p.rotateAux_exhausted p.total
      have hp : p₁ = (p.rotateAux p.total).1 := by
        cases h
        rfl
      rw [hp, hexh]
      exact hidx
    · rw [if_neg hok] at h
      cases h
  · rw [if_neg hmem] at h
    cases h
    exact hmem

theorem KeyPool.current_key_idx_lt (p p₁ : KeyPool) (k : String) (hwf : p.WF)
    (h : p.current_key = (p₁, some k)) : p₁.current_idx < p₁.keys.length := by
  have h0 : 0 < p.total := by
    have := List.length_pos.mpr hwf.ne
    simpa [KeyPool.total] using this
  unfold KeyPool.current_key at h
  by_cases hmem : p.current_idx ∈ p.exhausted
  · rw [if_pos hmem] at h
    simp only [KeyPool.rotate] at h
    by_cases hok : (p.rotateAux p.total).2 = true
    · rw [if_pos hok] at h
      have hlt := p.rotateAux_true_lt p.total h0 hok
      have hk := p.rotateAux_keys p.total
      have hp : p₁ = (p.rotateAux p.total).1 := by
        cases h
        rfl
      rw [hp, hk]
      simpa [KeyPool.total] using hlt
    · rw [if_neg hok] at h
      cases h
  · rw [if_neg hmem] at h
    cases h
    exact hwf.idx_lt

theorem KeyPool.rotateAux_idx_lt (n : Nat) (p : KeyPool) (h0 : 0 < p.total) (hn : 0 < n) :
    ((p.rotateAux n).1).current_idx < p.total := by
  induction n generalizing p with
  | zero => omega
  | succ n ih =>
    simp only [KeyPool.rotateAux]
    split
    · cases Nat.eq_zero_or_pos n with
      | inl h =>
        subst h
        exact Nat.mod_lt _ h0
      | inr h => exact ih _ h0 h
    · exact Nat.mod_lt _ h0

theorem KeyPool.current_key_WF (p : KeyPool) (hwf : p.WF) : ((p.current_key).1).WF := by
  have h0 : 0 < p.total := by
    have := List.length_pos.mpr hwf.ne
    simpa [KeyPool.total] using this
  unfold KeyPool.current_key
  split
  · simp only [KeyPool.rotate]
    have hk := p.rotateAux_keys p.total
    have he := p.rotateAux_exhausted p.total
    have hlt := p.rotateAux_idx_lt p.total h0 h0
    split
    all_goals
      refine ⟨by rw [hk]; exact hwf.ne, ?_, by rw [hk, he]; exact hwf.sub⟩
    all_goals
      rw [hk]
    all_goals
      simpa [KeyPool.total] using hlt
  · exact hwf

theorem KeyPool.current_key_some_of_active (p : KeyPool) (hwf : p.WF)
    (hne : p.all_exhausted = false) : ∃ p₁ k, p.current_key = (p₁, some k) := by
  unfold KeyPool.current_key
  by_cases hmem : p.current_idx ∈ p.exhausted
  · rw [if_pos hmem]
    simp only [KeyPool.rotate]
    have hok : (p.rotateAux p.total).2 = true := p.rotate_true hwf hne
    rw [if_pos hok]
    exact ⟨_, _, rfl⟩
  · rw [if_neg hmem]
    exact ⟨_, _, rfl⟩

theorem KeyPool.mark_exhausted_exhausted (p : KeyPool) :
    ((p.mark_exhausted).1).exhausted = insert p.current_idx p.exhausted := by
  unfold KeyPool.mark_exhausted
  dsimp only
  split
  · rfl
  · simp only [KeyPool.rotate]
    exact KeyPool.rotateAux_exhausted _ _

theorem KeyPool.mark_exhausted_keys (p : KeyPool) :
    ((p.mark_exhausted).1).keys = p.keys := by
  unfold KeyPool.mark_exhausted
  dsimp only
  split
  · rfl
  · simp only [KeyPool.rotate]
    exact KeyPool.rotateAux_keys _ _

theorem KeyPool.mark_exhausted_true_not_all (p : KeyPool)
    (h : (p.mark_exhausted).2 = true) :
    ({ p with exhausted := insert p.current_idx p.exhausted } : KeyPool).all_exhausted
      = false := by
  unfold KeyPool.mark_exhausted at h
  by_cases hc :
      ({ p with exhausted := insert p.current_idx p.exhausted } : KeyPool).all_exhausted
  · rw [if_pos hc] at h
    cases h
  · simpa using hc

theorem KeyPool.mark_exhausted_WF (p : KeyPool) (hwf : p.WF) :
    ((p.mark_exhausted).1).WF := by
  have h0 : 0 < p.total := by
    have := List.length_pos.mpr hwf.ne
    simpa [KeyPool.total] using this
  have hsub : insert p.current_idx p.exhausted ⊆ Finset.range p.keys.length := by
    rw [Finset.insert_subset_iff]
    exact ⟨Finset.mem_range.mpr hwf.idx_lt, hwf.sub⟩
  unfold KeyPool.mark_exhausted
  dsimp only
  split
  · exact ⟨hwf.ne, hwf.idx_lt, hsub⟩
  · simp only [KeyPool.rotate]
    set q : KeyPool := { p with exhausted := insert p.current_idx p.exhausted }
    have hk := q.rotateAux_keys q.total
    have he := q.rotateAux_exhausted q.total
    have hlt := q.rotateAux_idx_lt q.total h0 h0
    refine ⟨by rw [hk]; exact hwf.ne, ?_, by rw [hk, he]; exact hsub⟩
    rw [hk]
    simpa [KeyPool.total] using hlt

theorem KeyPool.mark_exhausted_card (p : KeyPool) (h : p.current_idx ∉ p.exhausted) :
    ((p.mark_exhausted).1).exhausted.card = p.exhausted.card + 1 := by
  rw [p.mark_exhausted_exhausted]
  exact Finset.card_insert_of_not_mem h

theorem request_with_failover_go_mono {β : Type} :
    ∀ (f₁ f₂ : Nat) (att : Nat → HttpOutcome β) (p : KeyPool) (r : FailoverResult β),
      request_with_failover_go att f₁ p = some r → f₁ ≤ f₂ →
      request_with_failover_go att f₂ p = some r := by
  intro f₁
  induction f₁ with
  | zero =>
    intro f₂ att p r h _
    simp [request_with_failover_go] at h
  | succ f₁ ih =>
    intro f₂ att p r h hle
    cases f₂ with
    | zero => exact absurd hle (by omega)
    | succ f₂ =>
      have hle' : f₁ ≤ f₂ := by omega
      simp only [request_with_failover_go] at h ⊢
      by_cases hexh : p.all_exhausted = true
      · rw [if_pos hexh] at h ⊢
        exact h
      · rw [if_neg hexh] at h ⊢
        rcases hck : p.current_key with ⟨p₁, k⟩
        rw [hck] at h
        cases k with
        | none => exact h
        | some key =>
          dsimp only at h ⊢
          cases hatt : att 0 with
          | netErr =>
            rw [hatt] at h
            exact h
          | status c body =>
            rw [hatt] at h
            dsimp only at h ⊢
            by_cases hcode : c ∈ EXHAUSTION_CODES
            · rw [if_pos hcode] at h ⊢
              rcases hmk : p₁.mark_exhausted with ⟨p₂, ok⟩
              rw [hmk] at h
              cases ok with
              | false => exact h
              | true =>
                dsimp only at h ⊢
                rcases hgo : request_with_failover_go (fun n => att (n + 1)) f₁ p₂ with _ | r'
                · rw [hgo] at h
                  simp at h
                · rw [hgo] at h
                  rw [ih f₂ _ _ _ hgo hle']
                  exact h
            · rw [if_neg hcode] at h ⊢
              by_cases hc401 : c = 401
              · rw [if_pos hc401] at h ⊢
                rcases hmk : p₁.mark_exhausted with ⟨p₂, ok⟩
                rw [hmk] at h
                cases ok with
                | false => exact h
                | true =>
                  dsimp only at h ⊢
                  rcases hgo : request_with_failover_go (fun n => att (n + 1)) f₁ p₂ with _ | r'
                  · rw [hgo] at h
                    simp at h
                  · rw [hgo] at h
                    rw [ih f₂ _ _ _ hgo hle']
                    exact h
              · rw [if_neg hc401] at h ⊢
                by_cases hrange : 400 ≤ c ∧ c < 600
                · rw [if_pos hrange] at h ⊢
                  exact h
                · rw [if_neg hrange] at h ⊢
                  cases body with
                  | some b => exact h
                  | none => exact h

theorem request_with_failover_go_total {β : Type} :
    ∀ (fuel : Nat) (att : Nat → HttpOutcome β) (p : KeyPool), p.WF →
      p.keys.length + 1 - p.exhausted.card ≤ fuel →
      ∃ r, request_with_failover_go att fuel p = some r ∧
        r.attempts + p.exhausted.card ≤ p.keys.length := by
  intro fuel
  induction fuel with
  | zero =>
    intro att p hwf hfuel
    have hcard : p.exhausted.card ≤ p.keys.length := by
      have := Finset.card_le_card hwf.sub
      simpa [Finset.card_range] using this
    omega
  | succ fuel ih =>
    intro att p hwf hfuel
    have hcard : p.exhausted.card ≤ p.keys.length := by
      have := Finset.card_le_card hwf.sub
      simpa [Finset.card_range] using this
    simp only [request_with_failover_go]
    by_cases hexh : p.all_exhausted = true
    · rw [if_pos hexh]
      exact ⟨_, rfl, by dsimp only; omega⟩
    · rw [if_neg hexh]
      have hne : p.all_exhausted = false := by simpa using hexh
      have hcardlt : p.exhausted.card < p.keys.length := by
        have := (KeyPool.all_exhausted_false_iff p).mp hne
        simpa [KeyPool.total] using this
      obtain ⟨p₁, key, hck⟩ := p.current_key_some_of_active hwf hne
      rw [hck]
      dsimp only
      have hex1 : p₁.exhausted = p.exhausted := by
        have := p.current_key_exhausted_eq
        rw [hck] at this
        exact this
      have hkeys1 : p₁.keys = p.keys := by
        have := p.current_key_keys_eq
        rw [hck] at this
        exact this
      have hwf1 : p₁.WF := by
        have := p.current_key_WF hwf
        rw [hck] at this
        exact this
      have hnotexh1 : p₁.current_idx ∉ p₁.exhausted :=
        KeyPool.current_key_some_not_exhausted p p₁ key hck
      cases att 0 with
      | netErr => exact ⟨_, rfl, by dsimp only; omega⟩
      | status c body =>
        dsimp only
        by_cases hcode : c ∈ EXHAUSTION_CODES
        · rw [if_pos hcode]
          rcases hmk : p₁.mark_exhausted with ⟨p₂, ok⟩
          have hex2 : p₂.exhausted = insert p₁.current_idx p₁.exhausted := by
            have := p₁.mark_exhausted_exhausted
            rw [hmk] at this
            exact this
          have hkeys2 : p₂.keys = p₁.keys := by
            have := p₁.mark_exhausted_keys
            rw [hmk] at this
            exact this
          have hcard2 : p₂.exhausted.card = p.exhausted.card + 1 := by
            rw [hex2, Finset.card_insert_of_not_mem hnotexh1, hex1]
          cases ok with
          | false => exact ⟨_, rfl, by dsimp only; omega⟩
          | true =>
            dsimp only
            have hwf2 : p₂.WF := by
              have := p₁.mark_exhausted_WF hwf1
              rw [hmk] at this
              exact this
            have hfuel2 : p₂.keys.length + 1 - p₂.exhausted.card ≤ fuel := by
              rw [hkeys2, hkeys1, hcard2]
              omega
            obtain ⟨r', hr', hb⟩ := ih (fun n => att (n + 1)) p₂ hwf2 hfuel2
            rw [hr']
            refine ⟨_, rfl, ?_⟩
            rw [hkeys2, hkeys1, hcard2] at hb
            dsimp only
            omega
        · rw [if_neg hcode]
          by_cases hc401 : c = 401
          · rw [if_pos hc401]
            rcases hmk : p₁.mark_exhausted with ⟨p₂, ok⟩
            have hex2 : p₂.exhausted = insert p₁.current_idx p₁.exhausted := by
              have := p₁.mark_exhausted_exhausted
              rw [hmk] at this
              exact this
            have hkeys2 : p₂.keys = p₁.keys := by
              have := p₁.mark_exhausted_keys
              rw [hmk] at this
              exact this
            have hcard2 : p₂.exhausted.card = p.exhausted.card + 1 := by
              rw [hex2, Finset.card_insert_of_not_mem hnotexh1, hex1]
            cases ok with
            | false => exact ⟨_, rfl, by dsimp only; omega⟩
            | true =>
              dsimp only
              have hwf2 : p₂.WF := by
                have := p₁.mark_exhausted_WF hwf1
                rw [hmk] at this
                exact this
              have hfuel2 : p₂.keys.length + 1 - p₂.exhausted.card ≤ fuel := by
                rw [hkeys2, hkeys1, hcard2]
                omega
              obtain ⟨r', hr', hb⟩ := ih (fun n => att (n + 1)) p₂ hwf2 hfuel2
              rw [hr']
              refine ⟨_, rfl, ?_⟩
              rw [hkeys2, hkeys1, hcard2] at hb
              dsimp only
              omega
          · rw [if_neg hc401]
            by_cases hrange : 400 ≤ c ∧ c < 600
            · rw [if_pos hrange]
              exact ⟨_, rfl, by dsimp only; omega⟩
            · rw [if_neg hrange]
              cases body with
              | some b => exact ⟨_, rfl, by dsimp only; omega⟩
              | none => exact ⟨_, rfl, by dsimp only; omega⟩

theorem request_with_failover_eq_go {β : Type} (p : KeyPool) (att : Nat → HttpOutcome β)
    (hwf : p.WF) :
    request_with_failover_go att (p.keys.length + 1) p = some (request_with_failover p att) := by
  obtain ⟨r, hr, _⟩ := request_with_failover_go_total (p.keys.length + 1) att p hwf (by omega)
  unfold request_with_failover
  rw [hr]
  rfl

/-- C7: every request-with-failover loop terminates within pool-size plus one
iterations (the explicit fuel bound is never exhausted), issues at most
pool-size HTTP attempts (hence attaches at most pool-size distinct
credentials), and the total wrapper returns exactly that bounded run. -/
theorem c7_failover_terminates {β : Type} (p : KeyPool) (att : Nat → HttpOutcome β)
    (hwf : p.WF) :
    ∃ r, request_with_failover_go att (p.keys.length + 1) p = some r ∧
      r.attempts ≤ p.keys.length ∧ request_with_failover p att = r := by
  obtain ⟨r, hr, hb⟩ := request_with_failover_go_total (p.keys.length + 1) att p hwf (by omega)
  refine ⟨r, hr, by omega, ?_⟩
  unfold request_with_failover
  rw [hr]
  rfl

/-- Witness for C7 at a concrete two-key pool whose attempts all rate-limit. -/
theorem c7_failover_terminates_witness :
    ∃ r, request_with_failover_go (fun _ => (HttpOutcome.status 429 none : HttpOutcome Nat))
        ((["k1", "k2"] : List String).length + 1) ⟨"Apollo", ["k1", "k2"], ∅, 0⟩ = some r ∧
      r.attempts ≤ (["k1", "k2"] : List String).length ∧
      request_with_failover ⟨"Apollo", ["k1", "k2"], ∅, 0⟩
        (fun _ => (HttpOutcome.status 429 none : HttpOutcome Nat)) = r :=
  c7_failover_terminates ⟨"Apollo", ["k1", "k2"], ∅, 0⟩
    (fun _ => (HttpOutcome.status 429 none : HttpOutcome Nat))
    ⟨by decide, by decide, Finset.empty_subset _⟩

theorem KeyPool.fresh_mark_step (sname : String) (keys : List String) (k : Nat)
    (hk : k + 1 < keys.length) :
    ((⟨sname, keys, Finset.range k, k⟩ : KeyPool).mark_exhausted).1 =
      ⟨sname, keys, Finset.range (k + 1), k + 1⟩ := by
  unfold KeyPool.mark_exhausted
  dsimp only
  rw [← Finset.range_succ]
  rw [if_neg (by simp [KeyPool.all_exhausted, KeyPool.total, Finset.card_range]; omega)]
  simp only [KeyPool.rotate, KeyPool.total]
  rcases hlen : keys.length with _ | m
  · omega
  · simp only [KeyPool.rotateAux]
    have hmod : (k + 1) % (⟨sname, keys, Finset.range (k + 1), k⟩ : KeyPool).total = k + 1 := by
      simp only [KeyPool.total]
      exact Nat.mod_eq_of_lt hk
    rw [if_neg]
    · simp [hmod]
    · rw [hmod]
      simp

theorem KeyPool.fresh_mark_last (sname : String) (keys : List String) (k : Nat)
    (hk : k + 1 = keys.length) :
    ((⟨sname, keys, Finset.range k, k⟩ : KeyPool).mark_exhausted).1 =
      ⟨sname, keys, Finset.range (k + 1), k⟩ := by
  unfold KeyPool.mark_exhausted
  dsimp only
  rw [← Finset.range_succ]
  rw [if_pos (by simp [KeyPool.all_exhausted, KeyPool.total, Finset.card_range]; omega)]

theorem KeyPool.fresh_iterate (sname : String) (keys : List String) :
    ∀ k, k < keys.length →
      (fun p => (KeyPool.mark_exhausted p).1)^[k] ⟨sname, keys, ∅, 0⟩ =
        ⟨sname, keys, Finset.range k, k⟩ := by
  intro k
  induction k with
  | zero =>
    intro _
    simp [Finset.range_zero]
  | succ k ih =>
    intro hk
    rw [Function.iterate_succ_apply', ih (by omega)]
    exact KeyPool.fresh_mark_step sname keys k hk

/-- C5: a KeyPool built from N credentials reaches the all-exhausted terminal
state after exactly N mark_exhausted calls, at which point the current-key
accessor returns the none sentinel; and no pool operation ever removes an
index from the exhausted set. -/
theorem c5_pool_rotation (sname : String) (keys : List String) (hne : keys ≠ []) :
    (((fun p => (KeyPool.mark_exhausted p).1)^[keys.length]
        ⟨sname, keys, ∅, 0⟩).all_exhausted = true ∧
      (((fun p => (KeyPool.mark_exhausted p).1)^[keys.length]
        ⟨sname, keys, ∅, 0⟩).current_key).2 = none) ∧
    (∀ q : KeyPool, q.exhausted ⊆ ((q.mark_exhausted).1).exhausted ∧
      ((q.rotate).1).exhausted = q.exhausted ∧
      ((q.current_key).1).exhausted = q.exhausted) := by
  have hN : 0 < keys.length := List.length_pos.mpr hne
  rcases hlen : keys.length with _ | m
  · omega
  · have hiter : (fun p => (KeyPool.mark_exhausted p).1)^[m + 1] ⟨sname, keys, ∅, 0⟩ =
        ⟨sname, keys, Finset.range (m + 1), m⟩ := by
      rw [Function.iterate_succ_apply']
      rw [KeyPool.fresh_iterate sname keys m (by omega)]
      exact KeyPool.fresh_mark_last sname keys m hlen.symm
    constructor
    · rw [hiter]
      constructor
      · simp [KeyPool.all_exhausted, KeyPool.total, Finset.card_range, hlen]
      · unfold KeyPool.current_key
        rw [if_pos (by simp)]
        simp only [KeyPool.rotate]
        rcases hrot : (⟨sname, keys, Finset.range (m + 1), m⟩ : KeyPool).rotateAux
            (⟨sname, keys, Finset.range (m + 1), m⟩ : KeyPool).total with ⟨p', ok⟩
        have hf : ok = false := by
          have hall := KeyPool.rotateAux_false_all
              (⟨sname, keys, Finset.range (m + 1), m⟩ : KeyPool).total
              (⟨sname, keys, Finset.range (m + 1), m⟩ : KeyPool)
              (by simp [KeyPool.total, hlen])
              (by
                intro i hi
                simp only [KeyPool.total, hlen] at hi
                simpa using hi)
          rw [hrot] at hall
          simpa using hall
        subst hf
        rfl
    · intro q
      refine ⟨?_, q.rotateAux_exhausted q.total, q.current_key_exhausted_eq⟩
      rw [q.mark_exhausted_exhausted]
      exact Finset.subset_insert _ _

/-- Witness for C5 at a concrete three-key pool. -/
theorem c5_pool_rotation_witness :
    ((((fun p => (KeyPool.mark_exhausted p).1)^[3]
        ⟨"Hunter", ["a", "b", "c"], ∅, 0⟩).all_exhausted = true) ∧
      ((((fun p => (KeyPool.mark_exhausted p).1)^[3]
        ⟨"Hunter", ["a", "b", "c"], ∅, 0⟩).current_key).2 = none)) :=
  ⟨((c5_pool_rotation "Hunter" ["a", "b", "c"] (by decide)).1).1,
    ((c5_pool_rotation "Hunter" ["a", "b", "c"] (by decide)).1).2⟩

theorem allStrings_map_str (l : List String) :
    allStrings (l.map JsonVal.str) = some l := by
  induction l with
  | nil => rfl
  | cons a l ih => simp [allStrings, ih]

theorem SearchCache.load_saveJson (s : Finset String) :
    SearchCache.load (some (some (SearchCache.saveJson s))) = .ok s := by
  unfold SearchCache.saveJson
  unfold SearchCache.load
  simp [List.lookup, allStrings_map_str, Finset.sort_toFinset]

theorem SearchCache.is_done_mark_done_self (c : SearchCache) (x : String) :
    (c.mark_done x).is_done x = true := by
  simp [SearchCache.mark_done, SearchCache.is_done]

theorem SearchCache.is_done_mark_done_mono (c : SearchCache) (x k : String)
    (h : c.is_done k = true) : (c.mark_done x).is_done k = true := by
  simp [SearchCache.mark_done, SearchCache.is_done] at h ⊢
  exact Or.inr h

theorem SearchCache.is_done_foldl_mono (ids : List String) :
    ∀ (c : SearchCache) (k : String), c.is_done k = true →
      (ids.foldl SearchCache.mark_done c).is_done k = true := by
  induction ids with
  | nil =>
    intro c k h
    exact h
  | cons x ids ih =>
    intro c k h
    exact ih _ _ (c.is_done_mark_done_mono x k h)

theorem SearchCache.foldl_marks_done (ids : List String) :
    ∀ (c : SearchCache) (x : String), x ∈ ids →
      (ids.foldl SearchCache.mark_done c).is_done x = true := by
  induction ids with
  | nil =>
    intro c x h
    cases h
  | cons y ids ih =>
    intro c x h
    rcases List.mem_cons.mp h with h | h
    · subst h
      exact SearchCache.is_done_foldl_mono ids _ _ (c.is_done_mark_done_self x)
    · exact ih _ _ h

/-- C4: Search Cache monotonicity and persistence. Every identifier in a
sequence of mark_done calls tests done afterwards; each mark_done stores the
JSON object holding the sorted full set; constructing a new SearchCache over
that storage reloads exactly the marked set; mark_done never removes a key;
and clear empties the set and deletes the backing storage. -/
theorem c4_cache_monotone_persistent (c : SearchCache) (ids : List String)
    (id k : String) :
    (∀ x ∈ ids, (ids.foldl SearchCache.mark_done c).is_done x = true) ∧
    (c.mark_done id).storage = some (some (SearchCache.saveJson (insert id c.completed))) ∧
    SearchCache.init ((c.mark_done id).storage) =
      .ok ⟨(c.mark_done id).completed, (c.mark_done id).storage⟩ ∧
    (c.is_done k = true → (c.mark_done id).is_done k = true) ∧
    ((c.clear).completed = ∅ ∧ (c.clear).storage = none ∧ (c.clear).is_done k = false) := by
  refine ⟨fun x hx => SearchCache.foldl_marks_done ids c x hx, rfl, ?_,
    c.is_done_mark_done_mono id k, rfl, rfl, by simp [SearchCache.clear, SearchCache.is_done]⟩
  show SearchCache.init (some (some (SearchCache.saveJson (insert id c.completed)))) = _
  unfold SearchCache.init
  rw [SearchCache.load_saveJson]
  rfl

/-- Witness for C4 at a concrete cache and mark sequence. -/
theorem c4_cache_monotone_persistent_witness :
    ((["a", "b"] : List String).foldl SearchCache.mark_done ⟨∅, none⟩).is_done "a" = true :=
  (c4_cache_monotone_persistent ⟨∅, none⟩ ["a", "b"] "x" "y").1 "a" (by decide)

/-- C8 evidence: the constructor is total on a missing or unparsable file,
but raises (uncaught AttributeError) on a file whose content parses to a
JSON value that is not an object, such as the JSON text [] — refuting the
never-fails contract for parsable JSON of any shape. -/
theorem c8_load_raises_on_array :
    SearchCache.init (some (some (JsonVal.arr []))) =
      .error "AttributeError: value has no attribute get" ∧
    SearchCache.init none = .ok ⟨∅, none⟩ ∧
    SearchCache.init (some none) = .ok ⟨∅, some none⟩ :=
  ⟨rfl, rfl, rfl⟩

theorem dedupFold_spec (f : Nat → String) :
    ∀ (is : List Nat) (acc : List String), acc.Nodup → "" ∉ acc →
      (is.foldl (fun ks i => if f i ≠ "" ∧ f i ∉ ks then ks ++ [f i] else ks) acc).Nodup ∧
      "" ∉ (is.foldl (fun ks i => if f i ≠ "" ∧ f i ∉ ks then ks ++ [f i] else ks) acc) ∧
      List.Sublist (is.foldl (fun ks i => if f i ≠ "" ∧ f i ∉ ks then ks ++ [f i] else ks) acc)
        (acc ++ is.map f) := by
  intro is
  induction is with
  | nil =>
    intro acc h1 h2
    exact ⟨h1, h2, by simp⟩
  | cons i is ih =>
    intro acc h1 h2
    simp only [List.foldl_cons, List.map_cons]
    by_cases hc : f i ≠ "" ∧ f i ∉ acc
    · rw [if_pos hc]
      have h1' : (acc ++ [f i]).Nodup := by
        rw [← List.concat_eq_append]
        exact h1.concat hc.2
      have h2' : "" ∉ acc ++ [f i] := by
        simp only [List.mem_append, List.mem_singleton]
        rintro (h | h)
        · exact h2 h
        · exact hc.1 h.symm
      obtain ⟨n1, n2, n3⟩ := ih (acc ++ [f i]) h1' h2'
      refine ⟨n1, n2, ?_⟩
      have heq : (acc ++ [f i]) ++ is.map f = acc ++ (f i :: is.map f) := by
        rw [List.append_assoc]
        rfl
      rw [heq] at n3
      exact n3
    · rw [if_neg hc]
      obtain ⟨n1, n2, n3⟩ := ih acc h1 h2
      refine ⟨n1, n2, ?_⟩
      have hsub : List.Sublist (acc ++ is.map f) (acc ++ (f i :: is.map f)) :=
        (List.sublist_cons_self (f i) (is.map f)).append_left acc
      exact n3.trans hsub

theorem dedupFold_congr (f f' : Nat → String) :
    ∀ (is : List Nat) (acc : List String), (∀ i ∈ is, f i = f' i) →
      is.foldl (fun ks i => if f i ≠ "" ∧ f i ∉ ks then ks ++ [f i] else ks) acc =
      is.foldl (fun ks i => if f' i ≠ "" ∧ f' i ∉ ks then ks ++ [f' i] else ks) acc := by
  intro is
  induction is with
  | nil =>
    intro acc _
    rfl
  | cons i is ih =>
    intro acc h
    simp only [List.foldl_cons]
    rw [h i (List.mem_cons_self i is)]
    exact ih _ (fun j hj => h j (List.mem_cons_of_mem i hj))

theorem collect_keys_from_env_congr (env env' : String → String) (pfx : String)
    (hnum : ∀ i ∈ List.range' 1 20,
      env (pfx ++ "_" ++ toString i) = env' (pfx ++ "_" ++ toString i))
    (hbare : env pfx = env' pfx) :
    collect_keys_from_env env pfx = collect_keys_from_env env' pfx := by
  unfold collect_keys_from_env
  dsimp only
  rw [hbare, dedupFold_congr (fun i => pyStrip (env (pfx ++ "_" ++ toString i)))
    (fun i => pyStrip (env' (pfx ++ "_" ++ toString i))) (List.range' 1 20) []
    (fun i hi => by dsimp only; rw [hnum i hi])]

theorem collect_keys_aux_spec (f : Nat → String) (g : String) :
    (if g ≠ "" ∧ g ∉ ((List.range' 1 20).foldl
          (fun ks i => if f i ≠ "" ∧ f i ∉ ks then ks ++ [f i] else ks) [])
      then ((List.range' 1 20).foldl
          (fun ks i => if f i ≠ "" ∧ f i ∉ ks then ks ++ [f i] else ks) []) ++ [g]
      else ((List.range' 1 20).foldl
          (fun ks i => if f i ≠ "" ∧ f i ∉ ks then ks ++ [f i] else ks) [])).Nodup ∧
    "" ∉ (if g ≠ "" ∧ g ∉ ((List.range' 1 20).foldl
          (fun ks i => if f i ≠ "" ∧ f i ∉ ks then ks ++ [f i] else ks) [])
      then ((List.range' 1 20).foldl
          (fun ks i => if f i ≠ "" ∧ f i ∉ ks then ks ++ [f i] else ks) []) ++ [g]
      else ((List.range' 1 20).foldl
          (fun ks i => if f i ≠ "" ∧ f i ∉ ks then ks ++ [f i] else ks) [])) ∧
    List.Sublist (if g ≠ "" ∧ g ∉ ((List.range' 1 20).foldl
          (fun ks i => if f i ≠ "" ∧ f i ∉ ks then ks ++ [f i] else ks) [])
      then ((List.range' 1 20).foldl
          (fun ks i => if f i ≠ "" ∧ f i ∉ ks then ks ++ [f i] else ks) []) ++ [g]
      else ((List.range' 1 20).foldl
          (fun ks i => if f i ≠ "" ∧ f i ∉ ks then ks ++ [f i] else ks) []))
      (((List.range' 1 20).map f) ++ [g]) := by
  obtain ⟨n1, n2, n3⟩ := dedupFold_spec f (List.range' 1 20) [] List.nodup_nil (by simp)
  simp only [List.nil_append] at n3
  split_ifs with hc
  · refine ⟨?_, ?_, ?_⟩
    · rw [← List.concat_eq_append]
      exact n1.concat hc.2
    · simp only [List.mem_append, List.mem_singleton]
      rintro (h | h)
      · exact n2 h
      · exact hc.1 h.symm
    · exact n3.append_right [g]
  · refine ⟨n1, n2, ?_⟩
    exact n3.trans (List.sublist_append_left _ _)

/-- C10: collect_keys_from_env depends only on the numbered entries 1..20
and the bare entry (so an entry numbered 21 or higher is never included),
and its result has no duplicates, no empty strings, and is a sublist of the
numbered values in order followed by the bare value last. -/
theorem c10_collect_keys_spec (env env' : String → String) (pfx : String) :
    ((∀ i ∈ List.range' 1 20,
        env (pfx ++ "_" ++ toString i) = env' (pfx ++ "_" ++ toString i)) →
      env pfx = env' pfx →
      collect_keys_from_env env pfx = collect_keys_from_env env' pfx) ∧
    (collect_keys_from_env env pfx).Nodup ∧
    "" ∉ collect_keys_from_env env pfx ∧
    List.Sublist (collect_keys_from_env env pfx)
      (((List.range' 1 20).map (fun i => pyStrip (env (pfx ++ "_" ++ toString i)))) ++
        [pyStrip (env pfx)]) := by
  obtain ⟨n1, n2, n3⟩ :=
    collect_keys_aux_spec (fun i => pyStrip (env (pfx ++ "_" ++ toString i))) (pyStrip (env pfx))
  exact ⟨fun hnum hbare => collect_keys_from_env_congr env env' pfx hnum hbare, n1, n2, n3⟩

/-- Witness for C10: two environments differing only at the entry numbered 21
produce the same key list. -/
theorem c10_collect_keys_spec_witness :
    collect_keys_from_env
        (fun s => if s = "K_1" then "a" else if s = "K_21" then "junk" else "") "K" =
      collect_keys_from_env
        (fun s => if s = "K_1" then "a" else if s = "K_21" then "other" else "") "K" :=
  (c10_collect_keys_spec
      (fun s => if s = "K_1" then "a" else if s = "K_21" then "junk" else "")
      (fun s => if s = "K_1" then "a" else if s = "K_21" then "other" else "") "K").1
    (by decide) (by decide)

theorem go_pred_eq_wrapper {β : Type} (p₂ : KeyPool) (att' : Nat → HttpOutcome β)
    (hwf2 : p₂.WF) (h1 : 1 ≤ p₂.exhausted.card) :
    request_with_failover_go att' p₂.keys.length p₂ =
      some (request_with_failover p₂ att') := by
  obtain ⟨r, hr, _⟩ :=
    request_with_failover_go_total p₂.keys.length att' p₂ hwf2 (by omega)
  have hr2 := request_with_failover_go_mono p₂.keys.length (p₂.keys.length + 1)
    att' p₂ r hr (by omega)
  unfold request_with_failover
  rw [hr2, hr]
  rfl

/-- C3 amended: classification of the failover loop on the first response.
Rate-limit statuses 429 and 403 mark the current credential exhausted and
retry the same logical request on the rotated pool after one pause (or
return the empty result when no credential remains); 401 does the same with
no pause; any other status in 400..599 and any network-level failure return
the empty result immediately with no credential marked; any status outside
400..599 (all 2xx, but also for example 304) returns the parsed body. -/
theorem c3_response_classification_amended {β : Type} (p p₁ : KeyPool) (k : String)
    (att : Nat → HttpOutcome β) (hwf : p.WF) (hne : p.all_exhausted = false)
    (hck : p.current_key = (p₁, some k)) :
    p₁.exhausted = p.exhausted ∧
    (att 0 = .netErr → request_with_failover p att = ⟨none, p₁, 1, 0⟩) ∧
    (∀ c b, att 0 = .status c b → 400 ≤ c → c < 600 → c ≠ 429 → c ≠ 403 → c ≠ 401 →
      request_with_failover p att = ⟨none, p₁, 1, 0⟩) ∧
    (∀ c b, att 0 = .status c (some b) → ¬(400 ≤ c ∧ c < 600) →
      request_with_failover p att = ⟨some b, p₁, 1, 0⟩) ∧
    (∀ c b, att 0 = .status c b → (c = 429 ∨ c = 403) →
      ((p₁.mark_exhausted).2 = false →
        request_with_failover p att = ⟨none, (p₁.mark_exhausted).1, 1, 0⟩) ∧
      ((p₁.mark_exhausted).2 = true →
        request_with_failover p att =
          ⟨(request_with_failover (p₁.mark_exhausted).1 (fun n => att (n + 1))).result,
           (request_with_failover (p₁.mark_exhausted).1 (fun n => att (n + 1))).pool,
           (request_with_failover (p₁.mark_exhausted).1 (fun n => att (n + 1))).attempts + 1,
           (request_with_failover (p₁.mark_exhausted).1 (fun n => att (n + 1))).sleeps + 1⟩)) ∧
    (∀ b, att 0 = .status 401 b →
      ((p₁.mark_exhausted).2 = false →
        request_with_failover p att = ⟨none, (p₁.mark_exhausted).1, 1, 0⟩) ∧
      ((p₁.mark_exhausted).2 = true →
        request_with_failover p att =
          ⟨(request_with_failover (p₁.mark_exhausted).1 (fun n => att (n + 1))).result,
           (request_with_failover (p₁.mark_exhausted).1 (fun n => att (n + 1))).pool,
           (request_with_failover (p₁.mark_exhausted).1 (fun n => att (n + 1))).attempts + 1,
           (request_with_failover (p₁.mark_exhausted).1 (fun n => att (n + 1))).sleeps⟩)) := by
  have hex1 : p₁.exhausted = p.exhausted := by
    have := p.current_key_exhausted_eq
    rw [hck] at this
    exact this
  have hkeys1 : p₁.keys = p.keys := by
    have := p.current_key_keys_eq
    rw [hck] at this
    exact this
  have hwf1 : p₁.WF := by
    have := p.current_key_WF hwf
    rw [hck] at this
    exact this
  have hne' : ¬p.all_exhausted = true := by simp [hne]
  refine ⟨hex1, ?_, ?_, ?_, ?_, ?_⟩
  · intro hnet
    simp only [request_with_failover, request_with_failover_go]
    rw [if_neg hne', hck, hnet]
    rfl
  · intro c b hatt h1 h2 h3 h4 h5
    simp only [request_with_failover, request_with_failover_go]
    rw [if_neg hne', hck, hatt]
    dsimp only
    rw [if_neg (by simp only [EXHAUSTION_CODES, Finset.mem_insert, Finset.mem_singleton]; omega),
      if_neg h5, if_pos ⟨h1, h2⟩]
    rfl
  · intro c b hatt hrange
    simp only [request_with_failover, request_with_failover_go]
    rw [if_neg hne', hck, hatt]
    dsimp only
    rw [if_neg (by simp only [EXHAUSTION_CODES, Finset.mem_insert, Finset.mem_singleton]; omega),
      if_neg (by omega), if_neg hrange]
    rfl
  · intro c b hatt hc
    have hcode : c ∈ EXHAUSTION_CODES := by
      simp only [EXHAUSTION_CODES, Finset.mem_insert, Finset.mem_singleton]
      omega
    rcases hmk : p₁.mark_exhausted with ⟨p₂, ok⟩
    have hex2 : p₂.exhausted = insert p₁.current_idx p₁.exhausted := by
      have := p₁.mark_exhausted_exhausted
      rw [hmk] at this
      exact this
    have hkeys2 : p₂.keys = p₁.keys := by
      have := p₁.mark_exhausted_keys
      rw [hmk] at this
      exact this
    have hwf2 : p₂.WF := by
      have := p₁.mark_exhausted_WF hwf1
      rw [hmk] at this
      exact this
    have hcard1 : 1 ≤ p₂.exhausted.card := by
      rw [hex2]
      have := Finset.card_pos.mpr (Finset.insert_nonempty p₁.current_idx p₁.exhausted)
      omega
    constructor
    · intro hfalse
      cases ok with
      | true => cases hfalse
      | false =>
        simp only [request_with_failover, request_with_failover_go]
        rw [if_neg hne', hck, hatt]
        dsimp only
        rw [if_pos hcode, hmk]
        rfl
    · intro htrue
      cases ok with
      | false => cases htrue
      | true =>
        simp only [request_with_failover, request_with_failover_go]
        rw [if_neg hne', hck, hatt]
        dsimp only
        rw [if_pos hcode, hmk]
        dsimp only
        have hkl : p₂.keys.length = p.keys.length := by rw [hkeys2, hkeys1]
        rw [← hkl, go_pred_eq_wrapper p₂ (fun n => att (n + 1)) hwf2 hcard1]
        rfl
  · intro b hatt
    rcases hmk : p₁.mark_exhausted with ⟨p₂, ok⟩
    have hex2 : p₂.exhausted = insert p₁.current_idx p₁.exhausted := by
      have := p₁.mark_exhausted_exhausted
      rw [hmk] at this
      exact this
    have hkeys2 : p₂.keys = p₁.keys := by
      have := p₁.mark_exhausted_keys
      rw [hmk] at this
      exact this
    have hwf2 : p₂.WF := by
      have := p₁.mark_exhausted_WF hwf1
      rw [hmk] at this
      exact this
    have hcard1 : 1 ≤ p₂.exhausted.card := by
      rw [hex2]
      have := Finset.card_pos.mpr (Finset.insert_nonempty p₁.current_idx p₁.exhausted)
      omega
    constructor
    · intro hfalse
      cases ok with
      | true => cases hfalse
      | false =>
        simp only [request_with_failover, request_with_failover_go]
        rw [if_neg hne', hck, hatt]
        dsimp only
        rw [if_neg (by simp [EXHAUSTION_CODES]), if_pos rfl, hmk]
        rfl
    · intro htrue
      cases ok with
      | false => cases htrue
      | true =>
        simp only [request_with_failover, request_with_failover_go]
        rw [if_neg hne', hck, hatt]
        dsimp only
        rw [if_neg (by simp [EXHAUSTION_CODES]), if_pos rfl, hmk]
        dsimp only
        have hkl : p₂.keys.length = p.keys.length := by rw [hkeys2, hkeys1]
        rw [← hkl, go_pred_eq_wrapper p₂ (fun n => att (n + 1)) hwf2 hcard1]
        rfl

/-- C3 counterexample: status 304 is neither 2xx nor one of 429, 403, 401,
yet the loop returns the parsed body rather than an empty result, because
raise_for_status only raises for 400..599. Refutes the claim as stated. -/
theorem c3_status_304_counterexample :
    ¬(200 ≤ 304 ∧ 304 < 300) ∧ (304 : Nat) ∉ ({429, 403, 401} : Finset Nat) ∧
    (request_with_failover ⟨"Apollo", ["k1"], ∅, 0⟩
        (fun _ => HttpOutcome.status 304 (some (ApolloSearchBody.mk [])))).result =
      some (ApolloSearchBody.mk []) := by
  exact ⟨by decide, by decide, rfl⟩

/-- Witness for the amended C3 at a concrete pool and a network failure. -/
theorem c3_response_classification_amended_witness :
    request_with_failover (⟨"Apollo", ["k1", "k2"], ∅, 0⟩ : KeyPool)
        (fun _ => (HttpOutcome.netErr : HttpOutcome ApolloSearchBody)) =
      ⟨none, ⟨"Apollo", ["k1", "k2"], ∅, 0⟩, 1, 0⟩ :=
  ((c3_response_classification_amended ⟨"Apollo", ["k1", "k2"], ∅, 0⟩
      ⟨"Apollo", ["k1", "k2"], ∅, 0⟩ "k1"
      (fun _ => (HttpOutcome.netErr : HttpOutcome ApolloSearchBody))
      ⟨by decide, by decide, Finset.empty_subset _⟩ (by decide) rfl).2.1) rfl

theorem apolloSearchCall_frame (env : RemoteEnv) (st : CollectState) :
    ((apolloSearchCall env st).2).contacts = st.contacts ∧
    ((apolloSearchCall env st).2).seen = st.seen ∧
    ((apolloSearchCall env st).2).enriched = st.enriched ∧
    ((apolloSearchCall env st).2).cache = st.cache ∧
    ((apolloSearchCall env st).2).hunterPool = st.hunterPool ∧
    ((apolloSearchCall env st).2).enrichTrace = st.enrichTrace := by
  cases h : st.apolloPool with
  | none => simp [apolloSearchCall, h]
  | some pool => simp [apolloSearchCall, h]

theorem apolloEnrichCall_frame (env : RemoteEnv) (st : CollectState) :
    ((apolloEnrichCall env st).2).contacts = st.contacts ∧
    ((apolloEnrichCall env st).2).seen = st.seen ∧
    ((apolloEnrichCall env st).2).enriched = st.enriched ∧
    ((apolloEnrichCall env st).2).cache = st.cache ∧
    ((apolloEnrichCall env st).2).hunterPool = st.hunterPool ∧
    ((apolloEnrichCall env st).2).enrichTrace = st.enrichTrace := by
  cases h : st.apolloPool with
  | none => simp [apolloEnrichCall, h]
  | some pool => simp [apolloEnrichCall, h]

theorem hunterSearchCall_frame (env : RemoteEnv) (st : CollectState) :
    ((hunterSearchCall env st).2).contacts = st.contacts ∧
    ((hunterSearchCall env st).2).seen = st.seen ∧
    ((hunterSearchCall env st).2).enriched = st.enriched ∧
    ((hunterSearchCall env st).2).cache = st.cache ∧
    ((hunterSearchCall env st).2).apolloPool = st.apolloPool ∧
    ((hunterSearchCall env st).2).enrichTrace = st.enrichTrace := by
  cases h : st.hunterPool with
  | none => simp [hunterSearchCall, h]
  | some pool => simp [hunterSearchCall, h]

theorem apolloEnrichPhase_frame (env : RemoteEnv) (ea : Bool)
    (nk f l em li : String) (st : CollectState) :
    ((apolloEnrichPhase env ea nk f l em li st).2.2).contacts = st.contacts ∧
    ((apolloEnrichPhase env ea nk f l em li st).2.2).seen = st.seen ∧
    ((apolloEnrichPhase env ea nk f l em li st).2.2).cache = st.cache ∧
    ((apolloEnrichPhase env ea nk f l em li st).2.2).hunterPool = st.hunterPool ∧
    st.enriched ⊆ ((apolloEnrichPhase env ea nk f l em li st).2.2).enriched ∧
    (∀ k ∈ ((apolloEnrichPhase env ea nk f l em li st).2.2).enrichTrace,
      k ∈ st.enrichTrace ∨ k ∉ st.enriched) := by
  unfold apolloEnrichPhase
  by_cases h1 : ea = true ∧ em = "" ∧ f ≠ "" ∧ l ≠ "" ∧ st.apolloExh = false
  · rw [if_pos h1]
    by_cases h2 : nk ∈ st.enriched
    · rw [if_pos h2]
      exact ⟨rfl, rfl, rfl, rfl, Finset.Subset.refl _, fun k hk => Or.inl hk⟩
    · rw [if_neg h2]
      have hf := apolloEnrichCall_frame env { st with enrichTrace := st.enrichTrace ++ [nk] }
      rcases hcall : apolloEnrichCall env { st with enrichTrace := st.enrichTrace ++ [nk] }
        with ⟨res, st₂⟩
      rw [hcall] at hf
      obtain ⟨hc, hs, he, hca, hh, ht⟩ := hf
      dsimp only at hc hs he hca hh ht
      have htr : ∀ k ∈ st₂.enrichTrace, k ∈ st.enrichTrace ∨ k ∉ st.enriched := by
        intro k hk
        rw [ht] at hk
        rcases List.mem_append.mp hk with hk | hk
        · exact Or.inl hk
        · rw [List.mem_singleton] at hk
          subst hk
          exact Or.inr h2
      cases res with
      | none => exact ⟨hc, hs, hca, hh, he ▸ Finset.Subset.refl _, htr⟩
      | some body =>
        dsimp only
        cases hp : body.person with
        | none => exact ⟨hc, hs, hca, hh, he ▸ Finset.Subset.refl _, htr⟩
        | some pd =>
          dsimp only
          by_cases h3 : pd.email ≠ ""
          · rw [if_pos h3]
            refine ⟨hc, hs, hca, hh, ?_, htr⟩
            rw [he]
            exact Finset.subset_insert _ _
          · rw [if_neg h3]
            exact ⟨hc, hs, hca, hh, he ▸ Finset.Subset.refl _, htr⟩
  · rw [if_neg h1]
    exact ⟨rfl, rfl, rfl, rfl, Finset.Subset.refl _, fun k hk => Or.inl hk⟩

theorem stepOk_refl (st : CollectState) : StepOk st st :=
  ⟨⟨[], by simp⟩, Finset.Subset.refl _, Finset.Subset.refl _, fun _ hk => Or.inl hk⟩

theorem stepOk_trans {a b c : CollectState} (h1 : StepOk a b) (h2 : StepOk b c) :
    StepOk a c := by
  obtain ⟨⟨t1, ht1⟩, hs1, he1, htr1⟩ := h1
  obtain ⟨⟨t2, ht2⟩, hs2, he2, htr2⟩ := h2
  refine ⟨⟨t1 ++ t2, by rw [ht2, ht1, List.append_assoc]⟩, hs1.trans hs2, he1.trans he2, ?_⟩
  intro k hk
  rcases htr2 k hk with hk2 | hk2
  · exact htr1 k hk2
  · right
    intro hmem
    exact hk2 (he1 hmem)

theorem stepInv_refl (st : CollectState) : StepInv st st :=
  ⟨stepOk_refl st, id⟩

theorem stepInv_trans {a b c : CollectState} (h1 : StepInv a b) (h2 : StepInv b c) :
    StepInv a c :=
  ⟨stepOk_trans h1.1 h2.1, fun hi => h2.2 (h1.2 hi)⟩

theorem stepInv_foldl {α : Type} (f : CollectState → α → CollectState) (l : List α)
    (h : ∀ st a, StepInv st (f st a)) : ∀ st, StepInv st (l.foldl f st) := by
  induction l with
  | nil =>
    intro st
    exact stepInv_refl st
  | cons a l ih =>
    intro st
    exact stepInv_trans (h st a) (ih (f st a))

theorem foldl_cache_eq {α : Type} (f : CollectState → α → CollectState) (l : List α)
    (h : ∀ st a, (f st a).cache = st.cache) : ∀ st, (l.foldl f st).cache = st.cache := by
  induction l with
  | nil =>
    intro st
    rfl
  | cons a l ih =>
    intro st
    rw [List.foldl_cons, ih (f st a), h st a]

theorem processApolloPerson_spec (env : RemoteEnv) (ea : Bool) (name domain : String)
    (st : CollectState) (person : ApolloPerson) :
    StepOk st (processApolloPerson env ea name domain st person) ∧
    (StInv st → StInv (processApolloPerson env ea name domain st person)) ∧
    (processApolloPerson env ea name domain st person).cache = st.cache ∧
    (processApolloPerson env ea name domain st person).hunterPool = st.hunterPool := by
  unfold processApolloPerson
  dsimp only
  by_cases hseen :
      pyLower (person.first_name ++ "|" ++ person.last_name ++ "|" ++ name) ∈ st.seen
  · rw [if_pos hseen]
    exact ⟨stepOk_refl st, id, rfl, rfl⟩
  · rw [if_neg hseen]
    have hf := apolloEnrichPhase_frame env ea
      (pyLower (person.first_name ++ "|" ++ person.last_name ++ "|" ++ name))
      person.first_name person.last_name person.email person.linkedin_url
      { st with seen := insert (pyLower (person.first_name ++ "|" ++ person.last_name ++ "|" ++ name)) st.seen }
    rcases hph : apolloEnrichPhase env ea
        (pyLower (person.first_name ++ "|" ++ person.last_name ++ "|" ++ name))
        person.first_name person.last_name person.email person.linkedin_url
        { st with seen := insert (pyLower (person.first_name ++ "|" ++ person.last_name ++ "|" ++ name)) st.seen } with ⟨em', li', st₁⟩
    rw [hph] at hf
    obtain ⟨hc, hs, hca, hh, he, htr⟩ := hf
    dsimp only at hc hs hca hh he htr
    dsimp only
    constructor
    · refine ⟨⟨_, by rw [hc]⟩, ?_, ?_, ?_⟩
      · rw [hs]
        exact (Finset.subset_insert _ _).trans (Finset.Subset.refl _)
      · exact he
      · exact htr
    refine ⟨?_, hca, hh⟩
    rintro ⟨i1, i2, i3, i4⟩
    have hckey : nameKeyOf
        { consultancy := name, first_name := person.first_name,
          last_name := person.last_name, email := em', job_title := person.title,
          linkedin_url := li', phone := "", source := "Apollo.io", notes := "" } =
        pyLower (person.first_name ++ "|" ++ person.last_name ++ "|" ++ name) := rfl
    refine ⟨?_, ?_, ?_, ?_⟩
    · intro c hcmem
      rw [hc] at hcmem
      rcases List.mem_append.mp hcmem with hcm | hcm
      · rw [hs]
        exact Finset.mem_insert_of_mem (i1 c hcm)
      · rw [List.mem_singleton] at hcm
        subst hcm
        rw [hckey, hs]
        exact Finset.mem_insert_self _ _
    · rw [hc, List.pairwise_append]
      refine ⟨i2, List.pairwise_singleton _ _, ?_⟩
      intro a ha b hb
      rw [List.mem_singleton] at hb
      subst hb
      rw [hckey]
      intro hcontra
      exact hseen (hcontra ▸ i1 a ha)
    · intro c hcmem hsrc hem
      rw [hc] at hcmem
      rcases List.mem_append.mp hcmem with hcm | hcm
      · rw [hs]
        exact Finset.mem_insert_of_mem (i3 c hcm hsrc hem)
      · rw [List.mem_singleton] at hcm
        subst hcm
        exact absurd hsrc (show ("Apollo.io" : String) ≠ "Hunter.io" by decide)
    · rw [hc, List.pairwise_append]
      refine ⟨i4, List.pairwise_singleton _ _, ?_⟩
      intro a ha b hb
      rw [List.mem_singleton] at hb
      subst hb
      intro _ hsrcb
      exact absurd hsrcb (show ("Apollo.io" : String) ≠ "Hunter.io" by decide)

theorem pyLower_ne_empty (s : String) (h : s ≠ "") : pyLower s ≠ "" := by
  intro hc
  apply h
  have h2 : s.data.map Char.toLower = [] := congrArg String.data hc
  have h3 : s.data = [] := List.map_eq_nil_iff.mp h2
  cases s
  simp at h3
  simp [h3]

theorem processHunterEntry_spec (name dept_label : String) (st : CollectState)
    (entry : HunterEntry) :
    StepOk st (processHunterEntry name dept_label st entry) ∧
    (StInv st → StInv (processHunterEntry name dept_label st entry)) ∧
    (processHunterEntry name dept_label st entry).cache = st.cache ∧
    (processHunterEntry name dept_label st entry).enrichTrace = st.enrichTrace := by
  unfold processHunterEntry
  dsimp only
  by_cases hskip : (if entry.value ≠ "" then pyLower entry.value else "") ∈ st.seen ∨
      pyLower (entry.first_name ++ "|" ++ entry.last_name ++ "|" ++ name) ∈ st.seen
  · rw [if_pos hskip]
    exact ⟨stepOk_refl st, id, rfl, rfl⟩
  · rw [if_neg hskip]
    push_neg at hskip
    obtain ⟨hdk, hnk⟩ := hskip
    by_cases he : entry.value ≠ ""
    · rw [if_pos he] at hdk
      have hdk2 : (if entry.value ≠ "" then pyLower entry.value else "") =
          pyLower entry.value := if_pos he
      rw [hdk2, if_pos (pyLower_ne_empty entry.value he), if_pos he]
      refine ⟨?_, ?_, rfl, rfl⟩
      · refine ⟨⟨_, rfl⟩, ?_, ?_, ?_⟩
        · intro x hx
          exact Finset.mem_insert_of_mem (Finset.mem_insert_of_mem hx)
        · intro x hx
          exact Finset.mem_insert_of_mem hx
        · intro k hk
          exact Or.inl hk
      · rintro ⟨i1, i2, i3, i4⟩
        refine ⟨?_, ?_, ?_, ?_⟩
        · intro c' hc'
          dsimp only at hc' ⊢
          rcases List.mem_append.mp hc' with hcm | hcm
          · exact Finset.mem_insert_of_mem (Finset.mem_insert_of_mem (i1 c' hcm))
          · rw [List.mem_singleton] at hcm
            subst hcm
            exact Finset.mem_insert_self _ _
        · dsimp only
          rw [List.pairwise_append]
          refine ⟨i2, List.pairwise_singleton _ _, ?_⟩
          intro a ha b hb
          rw [List.mem_singleton] at hb
          subst hb
          intro hcontra
          apply hnk
          have hma := i1 a ha
          rw [hcontra] at hma
          exact hma
        · intro c' hc' hsrc hem
          dsimp only at hc' ⊢
          rcases List.mem_append.mp hc' with hcm | hcm
          · exact Finset.mem_insert_of_mem (Finset.mem_insert_of_mem (i3 c' hcm hsrc hem))
          · rw [List.mem_singleton] at hcm
            subst hcm
            exact Finset.mem_insert_of_mem (Finset.mem_insert_self _ _)
        · dsimp only
          rw [List.pairwise_append]
          refine ⟨i4, List.pairwise_singleton _ _, ?_⟩
          intro a ha b hb
          rw [List.mem_singleton] at hb
          subst hb
          intro hsrca _ hema _
          intro hcontra
          apply hdk
          have hma := i3 a ha hsrca hema
          rw [hcontra] at hma
          exact hma
    · have hdk2 : (if entry.value ≠ "" then pyLower entry.value else "") = "" := if_neg he
      rw [hdk2, if_neg (show ¬(("" : String) ≠ "") by simp), if_neg he]
      have he' : entry.value = "" := not_not.mp he
      refine ⟨?_, ?_, rfl, rfl⟩
      · refine ⟨⟨_, rfl⟩, ?_, Finset.Subset.refl _, ?_⟩
        · intro x hx
          exact Finset.mem_insert_of_mem hx
        · intro k hk
          exact Or.inl hk
      · rintro ⟨i1, i2, i3, i4⟩
        refine ⟨?_, ?_, ?_, ?_⟩
        · intro c' hc'
          dsimp only at hc' ⊢
          rcases List.mem_append.mp hc' with hcm | hcm
          · exact Finset.mem_insert_of_mem (i1 c' hcm)
          · rw [List.mem_singleton] at hcm
            subst hcm
            exact Finset.mem_insert_self _ _
        · dsimp only
          rw [List.pairwise_append]
          refine ⟨i2, List.pairwise_singleton _ _, ?_⟩
          intro a ha b hb
          rw [List.mem_singleton] at hb
          subst hb
          intro hcontra
          apply hnk
          have hma := i1 a ha
          rw [hcontra] at hma
          exact hma
        · intro c' hc' hsrc hem
          dsimp only at hc' ⊢
          rcases List.mem_append.mp hc' with hcm | hcm
          · exact Finset.mem_insert_of_mem (i3 c' hcm hsrc hem)
          · rw [List.mem_singleton] at hcm
            subst hcm
            exact absurd he' hem
        · dsimp only
          rw [List.pairwise_append]
          refine ⟨i4, List.pairwise_singleton _ _, ?_⟩
          intro a ha b hb
          rw [List.mem_singleton] at hb
          subst hb
          intro _ _ _ hemb
          exact absurd he' hemb

theorem stepInv_of_eq (st st' : CollectState) (hc : st'.contacts = st.contacts)
    (hs : st'.seen = st.seen) (he : st'.enriched = st.enriched)
    (ht : st'.enrichTrace = st.enrichTrace) : StepInv st st' := by
  constructor
  · refine ⟨⟨[], by simp [hc]⟩, by rw [hs], by rw [he], ?_⟩
    intro k hk
    rw [ht] at hk
    exact Or.inl hk
  · rintro ⟨i1, i2, i3, i4⟩
    refine ⟨?_, ?_, ?_, ?_⟩
    · simp only [hc, hs]
      exact i1
    · simp only [hc]
      exact i2
    · simp only [hc, hs]
      exact i3
    · simp only [hc]
      exact i4

theorem apolloTitlesMark_stepInv (domain : String) (people : List ApolloPerson)
    (st : CollectState) : StepInv st (apolloTitlesMark domain people st) := by
  unfold apolloTitlesMark
  split_ifs
  · exact stepInv_of_eq _ _ rfl rfl rfl rfl
  · exact stepInv_refl st

theorem apolloBroadMark_stepInv (domain : String) (st : CollectState) :
    StepInv st (apolloBroadMark domain st) := by
  unfold apolloBroadMark
  split_ifs
  · exact stepInv_of_eq _ _ rfl rfl rfl rfl
  · exact stepInv_refl st

theorem hunterMark_stepInv (domain dept : String) (emails : List HunterEntry)
    (st : CollectState) : StepInv st (hunterMark domain dept emails st) := by
  unfold hunterMark
  split_ifs
  · exact stepInv_of_eq _ _ rfl rfl rfl rfl
  · exact stepInv_refl st

theorem apolloTitlesShape_stepInv (env : RemoteEnv) (ea : Bool) (name domain : String)
    (st : CollectState) : StepInv st (apolloTitlesShape env ea name domain st) := by
  unfold apolloTitlesShape
  split_ifs with h
  · exact stepInv_of_eq _ _ rfl rfl rfl rfl
  · rcases hcall : apolloSearchCall env st with ⟨result, st₁⟩
    have hf := apolloSearchCall_frame env st
    rw [hcall] at hf
    obtain ⟨hc, hs, he, _, _, ht⟩ := hf
    refine stepInv_trans (stepInv_of_eq st st₁ hc hs he ht)
      (stepInv_trans
        (stepInv_foldl (processApolloPerson env ea name domain)
          ((result.map ApolloSearchBody.people).getD [])
          (fun s a => ⟨(processApolloPerson_spec env ea name domain s a).1,
            (processApolloPerson_spec env ea name domain s a).2.1⟩) st₁)
        (apolloTitlesMark_stepInv domain ((result.map ApolloSearchBody.people).getD []) _))

theorem apolloBroadShape_stepInv (env : RemoteEnv) (ea : Bool) (name domain : String)
    (st : CollectState) : StepInv st (apolloBroadShape env ea name domain st) := by
  unfold apolloBroadShape
  split_ifs with h h2
  · exact stepInv_of_eq _ _ rfl rfl rfl rfl
  · rcases hcall : apolloSearchCall env st with ⟨result, st₁⟩
    have hf := apolloSearchCall_frame env st
    rw [hcall] at hf
    obtain ⟨hc, hs, he, _, _, ht⟩ := hf
    refine stepInv_trans (stepInv_of_eq st st₁ hc hs he ht)
      (stepInv_trans
        (stepInv_foldl (processApolloPerson env ea name domain)
          ((result.map ApolloSearchBody.people).getD [])
          (fun s a => ⟨(processApolloPerson_spec env ea name domain s a).1,
            (processApolloPerson_spec env ea name domain s a).2.1⟩) st₁)
        (apolloBroadMark_stepInv domain _))
  · exact stepInv_refl st

theorem hunterItShape_stepInv (env : RemoteEnv) (name domain : String)
    (st : CollectState) : StepInv st (hunterItShape env name domain st) := by
  unfold hunterItShape
  split_ifs with h
  · exact stepInv_of_eq _ _ rfl rfl rfl rfl
  · rcases hcall : hunterSearchCall env st with ⟨result, st₁⟩
    have hf := hunterSearchCall_frame env st
    rw [hcall] at hf
    obtain ⟨hc, hs, he, _, _, ht⟩ := hf
    refine stepInv_trans (stepInv_of_eq st st₁ hc hs he ht)
      (stepInv_trans
        (stepInv_foldl (processHunterEntry name "IT")
          ((result.map HunterBody.emails).getD [])
          (fun s a => ⟨(processHunterEntry_spec name "IT" s a).1,
            (processHunterEntry_spec name "IT" s a).2.1⟩) st₁)
        (hunterMark_stepInv domain "it" ((result.map HunterBody.emails).getD []) _))

theorem hunterHrShape_stepInv (env : RemoteEnv) (name domain : String)
    (st : CollectState) : StepInv st (hunterHrShape env name domain st) := by
  unfold hunterHrShape
  split_ifs with h h2
  · exact stepInv_of_eq _ _ rfl rfl rfl rfl
  · rcases hcall : hunterSearchCall env st with ⟨result, st₁⟩
    have hf := hunterSearchCall_frame env st
    rw [hcall] at hf
    obtain ⟨hc, hs, he, _, _, ht⟩ := hf
    refine stepInv_trans (stepInv_of_eq st st₁ hc hs he ht)
      (stepInv_trans
        (stepInv_foldl (processHunterEntry name "HR/Recruiting")
          ((result.map HunterBody.emails).getD [])
          (fun s a => ⟨(processHunterEntry_spec name "HR/Recruiting" s a).1,
            (processHunterEntry_spec name "HR/Recruiting" s a).2.1⟩) st₁)
        (hunterMark_stepInv domain "hr" ((result.map HunterBody.emails).getD []) _))
  · exact stepInv_refl st

theorem hunterMgmtShape_stepInv (env : RemoteEnv) (name domain : String)
    (st : CollectState) : StepInv st (hunterMgmtShape env name domain st) := by
  unfold hunterMgmtShape
  split_ifs with h h2
  · exact stepInv_of_eq _ _ rfl rfl rfl rfl
  · rcases hcall : hunterSearchCall env st with ⟨result, st₁⟩
    have hf := hunterSearchCall_frame env st
    rw [hcall] at hf
    obtain ⟨hc, hs, he, _, _, ht⟩ := hf
    refine stepInv_trans (stepInv_of_eq st st₁ hc hs he ht)
      (stepInv_trans
        (stepInv_foldl (processHunterEntry name "Management")
          ((result.map HunterBody.emails).getD [])
          (fun s a => ⟨(processHunterEntry_spec name "Management" s a).1,
            (processHunterEntry_spec name "Management" s a).2.1⟩) st₁)
        (hunterMark_stepInv domain "management" ((result.map HunterBody.emails).getD []) _))
  · exact stepInv_refl st

theorem apolloSection_stepInv (env : RemoteEnv) (ea : Bool) (name domain : String)
    (st : CollectState) : StepInv st (apolloSection env ea name domain st) := by
  unfold apolloSection
  split_ifs
  · exact stepInv_trans (apolloTitlesShape_stepInv env ea name domain st)
      (apolloBroadShape_stepInv env ea name domain _)
  · exact stepInv_refl st

theorem hunterSection_stepInv (env : RemoteEnv) (hio : Bool) (name domain : String)
    (st : CollectState) : StepInv st (hunterSection env hio name domain st) := by
  unfold hunterSection
  split_ifs
  · exact stepInv_trans (hunterItShape_stepInv env name domain st)
      (stepInv_trans (hunterHrShape_stepInv env name domain _)
        (hunterMgmtShape_stepInv env name domain _))
  · exact hunterItShape_stepInv env name domain st
  · exact stepInv_refl st

theorem collectFirm_stepInv (env : RemoteEnv) (ea hio : Bool) (st : CollectState)
    (firm : Consultancy) : StepInv st (collectFirm env ea hio st firm) := by
  unfold collectFirm
  exact stepInv_trans (apolloSection_stepInv env ea firm.name firm.domain st)
    (hunterSection_stepInv env hio firm.name firm.domain _)

theorem collectContactsRun_stepInv (env : RemoteEnv)
    (ap hp : Option KeyPool) (ea : Bool) (existing : List Contact)
    (seen enriched : Finset String) (cache : SearchCache) (hio : Bool) :
    StepInv
      ⟨existing, seen, enriched, cache, ap, hp, 0, 0, 0, 0, 0, 0, []⟩
      (collectContactsRun env ap hp ea existing seen enriched cache hio) := by
  unfold collectContactsRun
  exact stepInv_foldl (collectFirm env ea hio) CONSULTANCIES
    (fun s a => collectFirm_stepInv env ea hio s a) _

/-- C9: the merge step never deletes or mutates previously collected
contacts: the list returned by collect_contacts is exactly the given
existing list, unchanged and in order, followed by newly appended records. -/
theorem c9_contacts_prefix (env : RemoteEnv) (ap hp : Option KeyPool) (ea : Bool)
    (existing : List Contact) (seen enriched : Finset String) (cache : SearchCache)
    (hio : Bool) :
    ∃ t, collect_contacts env ap hp ea existing seen enriched cache hio =
      existing ++ t := by
  obtain ⟨⟨⟨t, ht⟩, _, _, _⟩, _⟩ :=
    collectContactsRun_stepInv env ap hp ea existing seen enriched cache hio
  exact ⟨t, ht⟩

theorem apolloEnrichPhase_skip (env : RemoteEnv) (ea : Bool)
    (nk f l em li : String) (st : CollectState) (h : nk ∈ st.enriched) :
    ((apolloEnrichPhase env ea nk f l em li st).2.2).enrichTrace = st.enrichTrace := by
  unfold apolloEnrichPhase
  split_ifs with h1
  · rfl
  · rfl

theorem processApolloPerson_enriched_skip (env : RemoteEnv) (ea : Bool)
    (name domain : String) (st : CollectState) (person : ApolloPerson)
    (h : pyLower (person.first_name ++ "|" ++ person.last_name ++ "|" ++ name)
      ∈ st.enriched) :
    (processApolloPerson env ea name domain st person).enrichTrace = st.enrichTrace := by
  unfold processApolloPerson
  dsimp only
  by_cases hseen :
      pyLower (person.first_name ++ "|" ++ person.last_name ++ "|" ++ name) ∈ st.seen
  · rw [if_pos hseen]
  · rw [if_neg hseen]
    rcases hph : apolloEnrichPhase env ea
        (pyLower (person.first_name ++ "|" ++ person.last_name ++ "|" ++ name))
        person.first_name person.last_name person.email person.linkedin_url
        { st with seen := insert (pyLower (person.first_name ++ "|" ++ person.last_name ++ "|" ++ name)) st.seen } with ⟨em', li', st₁⟩
    have hsk := apolloEnrichPhase_skip env ea
      (pyLower (person.first_name ++ "|" ++ person.last_name ++ "|" ++ name))
      person.first_name person.last_name person.email person.linkedin_url
      { st with seen := insert (pyLower (person.first_name ++ "|" ++ person.last_name ++ "|" ++ name)) st.seen } h
    rw [hph] at hsk
    exact hsk

theorem loadRow_pres (acc : List Contact × Finset String × Finset String) (row : XlRow) :
    acc.2.1 ⊆ (loadRow acc row).2.1 ∧ acc.2.2 ⊆ (loadRow acc row).2.2 ∧
    ((∀ c ∈ acc.1, c.email ≠ "" →
        nameKeyOf c ∈ acc.2.2 ∧ nameKeyOf c ∈ acc.2.1) →
      (∀ c ∈ (loadRow acc row).1, c.email ≠ "" →
        nameKeyOf c ∈ (loadRow acc row).2.2 ∧ nameKeyOf c ∈ (loadRow acc row).2.1)) := by
  rcases acc with ⟨contacts, seen, enriched⟩
  unfold loadRow
  dsimp only
  split_ifs with hskip hfilter hemail
  · exact ⟨Finset.Subset.refl _, Finset.Subset.refl _, id⟩
  · exact ⟨Finset.Subset.refl _, Finset.Subset.refl _, id⟩
  · refine ⟨?_, ?_, ?_⟩
    · intro x hx
      exact Finset.mem_insert_of_mem (Finset.mem_insert_of_mem hx)
    · intro x hx
      exact Finset.mem_insert_of_mem hx
    · intro hP c hc hce
      dsimp only at hc ⊢
      rcases List.mem_append.mp hc with hcm | hcm
      · obtain ⟨he1, he2⟩ := hP c hcm hce
        exact ⟨Finset.mem_insert_of_mem he1,
          Finset.mem_insert_of_mem (Finset.mem_insert_of_mem he2)⟩
      · rw [List.mem_singleton] at hcm
        subst hcm
        exact ⟨Finset.mem_insert_self _ _,
          Finset.mem_insert_of_mem (Finset.mem_insert_self _ _)⟩
  · refine ⟨?_, Finset.Subset.refl _, ?_⟩
    · intro x hx
      exact Finset.mem_insert_of_mem hx
    · intro hP c hc hce
      dsimp only at hc ⊢
      rcases List.mem_append.mp hc with hcm | hcm
      · obtain ⟨he1, he2⟩ := hP c hcm hce
        exact ⟨he1, Finset.mem_insert_of_mem he2⟩
      · rw [List.mem_singleton] at hcm
        subst hcm
        exact absurd (by simpa using hemail) hce

theorem loadRows_pres (rows : List XlRow) :
    ∀ acc : List Contact × Finset String × Finset String,
      (∀ c ∈ acc.1, c.email ≠ "" → nameKeyOf c ∈ acc.2.2 ∧ nameKeyOf c ∈ acc.2.1) →
      (∀ c ∈ (rows.foldl loadRow acc).1, c.email ≠ "" →
        nameKeyOf c ∈ (rows.foldl loadRow acc).2.2 ∧
        nameKeyOf c ∈ (rows.foldl loadRow acc).2.1) := by
  induction rows with
  | nil =>
    intro acc h
    exact h
  | cons row rows ih =>
    intro acc h
    exact ih (loadRow acc row) ((loadRow_pres acc row).2.2 h)

theorem load_existing_contacts_enriched (input : Option (Option Workbook)) :
    ∀ c ∈ (load_existing_contacts input).1, c.email ≠ "" →
      nameKeyOf c ∈ (load_existing_contacts input).2.2 ∧
      nameKeyOf c ∈ (load_existing_contacts input).2.1 := by
  unfold load_existing_contacts
  match input with
  | none => intro c hc; cases hc
  | some none => intro c hc; cases hc
  | some (some wb) =>
    dsimp only
    rcases hlk : wb.lookup "IT CS Recruiting Contacts" with _ | rows
    · intro c hc
      cases hc
    · exact loadRows_pres rows ([], ∅, ∅) (fun c hc => by cases hc)

theorem run_no_enrich_of_enriched (env : RemoteEnv) (ap hp : Option KeyPool) (ea : Bool)
    (existing : List Contact) (seen enriched : Finset String) (cache : SearchCache)
    (hio : Bool) (k : String) (hk : k ∈ enriched) :
    k ∉ (collectContactsRun env ap hp ea existing seen enriched cache hio).enrichTrace := by
  obtain ⟨⟨_, _, _, htr⟩, _⟩ :=
    collectContactsRun_stepInv env ap hp ea existing seen enriched cache hio
  intro hmem
  rcases htr k hmem with h | h
  · exact List.not_mem_nil k h
  · exact h hk

/-- C6: a person whose name key is already in the enriched set never triggers
the per-person enrichment call; and a prior-output row carrying an email puts
its name key into both enriched and seen, so a collection run started from
the loaded state never issues an enrichment call for that person. -/
theorem c6_enrichment_skip (env : RemoteEnv) (ea : Bool) (name domain : String)
    (st : CollectState) (person : ApolloPerson) (input : Option (Option Workbook))
    (ap hp : Option KeyPool) (cache : SearchCache) (hio : Bool) (c : Contact) :
    (pyLower (person.first_name ++ "|" ++ person.last_name ++ "|" ++ name) ∈ st.enriched →
      (processApolloPerson env ea name domain st person).enrichTrace = st.enrichTrace) ∧
    (c ∈ (load_existing_contacts input).1 → c.email ≠ "" →
      nameKeyOf c ∈ (load_existing_contacts input).2.2 ∧
      nameKeyOf c ∈ (load_existing_contacts input).2.1 ∧
      nameKeyOf c ∉ (collectContactsRun env ap hp ea (load_existing_contacts input).1
        (load_existing_contacts input).2.1 (load_existing_contacts input).2.2
        cache hio).enrichTrace) := by
  constructor
  · exact processApolloPerson_enriched_skip env ea name domain st person
  · intro hc hce
    obtain ⟨h1, h2⟩ := load_existing_contacts_enriched input c hc hce
    exact ⟨h1, h2, run_no_enrich_of_enriched env ap hp ea _ _ _ cache hio _ h1⟩

/-- Witness for C6: a workbook with one emailed row for Jane Doe at Acme. -/
theorem c6_enrichment_skip_witness :
    nameKeyOf ⟨"Acme", "Jane", "Doe", "jane@acme.com", "", "", "", "", ""⟩ ∈
      (load_existing_contacts (some (some [("IT CS Recruiting Contacts",
        [[some "Acme", some "Jane", some "Doe", some "jane@acme.com"]])]))).2.2 ∧
    nameKeyOf ⟨"Acme", "Jane", "Doe", "jane@acme.com", "", "", "", "", ""⟩ ∈
      (load_existing_contacts (some (some [("IT CS Recruiting Contacts",
        [[some "Acme", some "Jane", some "Doe", some "jane@acme.com"]])]))).2.1 ∧
    nameKeyOf ⟨"Acme", "Jane", "Doe", "jane@acme.com", "", "", "", "", ""⟩ ∉
      (collectContactsRun ⟨fun _ _ => .netErr, fun _ _ => .netErr, fun _ _ => .netErr⟩
        none none true
        (load_existing_contacts (some (some [("IT CS Recruiting Contacts",
          [[some "Acme", some "Jane", some "Doe", some "jane@acme.com"]])]))).1
        (load_existing_contacts (some (some [("IT CS Recruiting Contacts",
          [[some "Acme", some "Jane", some "Doe", some "jane@acme.com"]])]))).2.1
        (load_existing_contacts (some (some [("IT CS Recruiting Contacts",
          [[some "Acme", some "Jane", some "Doe", some "jane@acme.com"]])]))).2.2
        ⟨∅, none⟩ false).enrichTrace :=
  (c6_enrichment_skip ⟨fun _ _ => .netErr, fun _ _ => .netErr, fun _ _ => .netErr⟩
    true "" "" ⟨[], ∅, ∅, ⟨∅, none⟩, none, none, 0, 0, 0, 0, 0, 0, []⟩
    ⟨"", "", "", "", ""⟩
    (some (some [("IT CS Recruiting Contacts",
      [[some "Acme", some "Jane", some "Doe", some "jane@acme.com"]])]))
    none none ⟨∅, none⟩ false
    ⟨"Acme", "Jane", "Doe", "jane@acme.com", "", "", "", "", ""⟩).2
    (by decide) (by decide)

/-- C2 amended: provided every existing name key is registered in seen, the
existing list is pairwise distinct on name keys, and every existing Hunter
email is registered in seen with Hunter emails pairwise distinct, the list
returned by collect_contacts is pairwise distinct on name keys, and no two
Hunter-sourced entries with non-empty emails share a lower-cased email.
Service-A entries may share emails, since their emails are never registered
in seen (see the counterexample). -/
theorem c2_dedup_amended (env : RemoteEnv) (ap hp : Option KeyPool) (ea : Bool)
    (existing : List Contact) (seen enriched : Finset String) (cache : SearchCache)
    (hio : Bool)
    (h1 : ∀ c ∈ existing, nameKeyOf c ∈ seen)
    (h2 : existing.Pairwise (fun a b => nameKeyOf a ≠ nameKeyOf b))
    (h3 : ∀ c ∈ existing, c.source = "Hunter.io" → c.email ≠ "" → pyLower c.email ∈ seen)
    (h4 : existing.Pairwise hunterEmailOk) :
    (collect_contacts env ap hp ea existing seen enriched cache hio).Pairwise
      (fun a b => nameKeyOf a ≠ nameKeyOf b) ∧
    (collect_contacts env ap hp ea existing seen enriched cache hio).Pairwise
      hunterEmailOk := by
  obtain ⟨_, hpres⟩ :=
    collectContactsRun_stepInv env ap hp ea existing seen enriched cache hio
  have hinv := hpres ⟨h1, h2, h3, h4⟩
  exact ⟨hinv.2.1, hinv.2.2.2⟩

/-- Witness for the amended C2 on the empty prior state. -/
theorem c2_dedup_amended_witness :
    (collect_contacts ⟨fun _ _ => .netErr, fun _ _ => .netErr, fun _ _ => .netErr⟩
        none none true [] ∅ ∅ ⟨∅, none⟩ false).Pairwise
      (fun a b => nameKeyOf a ≠ nameKeyOf b) ∧
    (collect_contacts ⟨fun _ _ => .netErr, fun _ _ => .netErr, fun _ _ => .netErr⟩
        none none true [] ∅ ∅ ⟨∅, none⟩ false).Pairwise hunterEmailOk :=
  c2_dedup_amended ⟨fun _ _ => .netErr, fun _ _ => .netErr, fun _ _ => .netErr⟩
    none none true [] ∅ ∅ ⟨∅, none⟩ false
    (fun c hc => absurd hc (List.not_mem_nil c)) List.Pairwise.nil
    (fun c hc => absurd hc (List.not_mem_nil c)) List.Pairwise.nil

set_option maxRecDepth 100000 in
/-- C2 counterexample: an Apollo search returning two distinct people who
share one email produces two entries in the final list with equal non-empty
lower-cased emails, because the Apollo path never registers emails in seen.
This refutes the claim as stated for entries from Service A. -/
theorem c2_duplicate_email_counterexample :
    (collect_contacts
        ⟨fun c _ => if c = 0 then
            HttpOutcome.status 200 (some ⟨[⟨"John", "Smith", "Recruiter", "", "j@x.com"⟩,
              ⟨"Jane", "Roe", "Recruiter", "", "j@x.com"⟩]⟩)
          else HttpOutcome.netErr,
          fun _ _ => HttpOutcome.netErr, fun _ _ => HttpOutcome.netErr⟩
        (some ⟨"Apollo", ["k1"], ∅, 0⟩) none true [] ∅ ∅ ⟨∅, none⟩ false).get? 0 =
      some ⟨"Accenture", "John", "Smith", "j@x.com", "Recruiter", "", "", "Apollo.io", ""⟩ ∧
    (collect_contacts
        ⟨fun c _ => if c = 0 then
            HttpOutcome.status 200 (some ⟨[⟨"John", "Smith", "Recruiter", "", "j@x.com"⟩,
              ⟨"Jane", "Roe", "Recruiter", "", "j@x.com"⟩]⟩)
          else HttpOutcome.netErr,
          fun _ _ => HttpOutcome.netErr, fun _ _ => HttpOutcome.netErr⟩
        (some ⟨"Apollo", ["k1"], ∅, 0⟩) none true [] ∅ ∅ ⟨∅, none⟩ false).get? 1 =
      some ⟨"Accenture", "Jane", "Roe", "j@x.com", "Recruiter", "", "", "Apollo.io", ""⟩ ∧
    ("j@x.com" : String) ≠ "" := by
  refine ⟨?_, ?_, by decide⟩
  · decide
  · decide

/-- C1 amended: for the narrow-title Apollo shape and each of the three
Hunter department shapes, the Search Identifier is marked done if and only
if the pool was not fully exhausted at completion OR the query returned at
least one result, as claimed. For the broad Apollo shape, however, the
source at line 758 tests only pool exhaustion, so the identifier is marked
done if and only if the pool was not fully exhausted at completion; a broad
query that returned results while the pool became exhausted during
processing is not marked (see the counterexample). In every shape an
already-cached identifier is skipped, hence the not-cached hypotheses. -/
theorem c1_mark_done_guard_amended (env : RemoteEnv) (ea : Bool)
    (name domain : String) (st : CollectState) :
    (st.cache.is_done ("apollo_search|" ++ domain ++ "|titles") = false →
      ((apolloTitlesShape env ea name domain st).cache.is_done
          ("apollo_search|" ++ domain ++ "|titles") = true ↔
        ((((apolloSearchCall env st).1.map ApolloSearchBody.people).getD []).foldl
            (processApolloPerson env ea name domain)
            (apolloSearchCall env st).2).apolloExh = false ∨
          (((apolloSearchCall env st).1.map ApolloSearchBody.people).getD []) ≠ [])) ∧
    (st.cache.is_done ("apollo_search|" ++ domain ++ "|broad") = false →
      st.apolloExh = false →
      ((apolloBroadShape env ea name domain st).cache.is_done
          ("apollo_search|" ++ domain ++ "|broad") = true ↔
        ((((apolloSearchCall env st).1.map ApolloSearchBody.people).getD []).foldl
            (processApolloPerson env ea name domain)
            (apolloSearchCall env st).2).apolloExh = false)) ∧
    (st.cache.is_done ("hunter|" ++ domain ++ "|it") = false →
      ((hunterItShape env name domain st).cache.is_done
          ("hunter|" ++ domain ++ "|it") = true ↔
        ((((hunterSearchCall env st).1.map HunterBody.emails).getD []).foldl
            (processHunterEntry name "IT")
            (hunterSearchCall env st).2).hunterExh = false ∨
          (((hunterSearchCall env st).1.map HunterBody.emails).getD []) ≠ [])) ∧
    (st.cache.is_done ("hunter|" ++ domain ++ "|hr") = false →
      st.hunterExh = false →
      ((hunterHrShape env name domain st).cache.is_done
          ("hunter|" ++ domain ++ "|hr") = true ↔
        ((((hunterSearchCall env st).1.map HunterBody.emails).getD []).foldl
            (processHunterEntry name "HR/Recruiting")
            (hunterSearchCall env st).2).hunterExh = false ∨
          (((hunterSearchCall env st).1.map HunterBody.emails).getD []) ≠ [])) ∧
    (st.cache.is_done ("hunter|" ++ domain ++ "|management") = false →
      st.hunterExh = false →
      ((hunterMgmtShape env name domain st).cache.is_done
          ("hunter|" ++ domain ++ "|management") = true ↔
        ((((hunterSearchCall env st).1.map HunterBody.emails).getD []).foldl
            (processHunterEntry name "Management")
            (hunterSearchCall env st).2).hunterExh = false ∨
          (((hunterSearchCall env st).1.map HunterBody.emails).getD []) ≠ [])) := by
  refine ⟨?_, ?_, ?_, ?_, ?_⟩
  · intro hnc
    unfold apolloTitlesShape
    rw [if_neg (by simp [hnc])]
    rcases hcall : apolloSearchCall env st with ⟨result, st₁⟩
    dsimp only
    have hc1 : st₁.cache = st.cache := by
      have h := (apolloSearchCall_frame env st).2.2.2.1
      rw [hcall] at h
      exact h
    by_cases hg : (((result.map ApolloSearchBody.people).getD []).foldl
        (processApolloPerson env ea name domain) st₁).apolloExh = false ∨
        ((result.map ApolloSearchBody.people).getD []) ≠ []
    · unfold apolloTitlesMark
      rw [if_pos hg]
      exact iff_of_true (SearchCache.is_done_mark_done_self _ _) hg
    · unfold apolloTitlesMark
      rw [if_neg hg]
      have hfc : ((((result.map ApolloSearchBody.people).getD []).foldl
          (processApolloPerson env ea name domain) st₁)).cache = st₁.cache :=
        foldl_cache_eq _ _ (fun s a => (processApolloPerson_spec env ea name domain s a).2.2.1) st₁
      rw [hfc, hc1, hnc]
      exact iff_of_false Bool.false_ne_true hg
  · intro hnc hex
    unfold apolloBroadShape
    rw [if_neg (by simp [hnc]), if_pos hex]
    rcases hcall : apolloSearchCall env st with ⟨result, st₁⟩
    dsimp only
    have hc1 : st₁.cache = st.cache := by
      have h := (apolloSearchCall_frame env st).2.2.2.1
      rw [hcall] at h
      exact h
    by_cases hg : (((result.map ApolloSearchBody.people).getD []).foldl
        (processApolloPerson env ea name domain) st₁).apolloExh = false
    · unfold apolloBroadMark
      rw [if_pos hg]
      exact iff_of_true (SearchCache.is_done_mark_done_self _ _) hg
    · unfold apolloBroadMark
      rw [if_neg hg]
      have hfc : ((((result.map ApolloSearchBody.people).getD []).foldl
          (processApolloPerson env ea name domain) st₁)).cache = st₁.cache :=
        foldl_cache_eq _ _ (fun s a => (processApolloPerson_spec env ea name domain s a).2.2.1) st₁
      rw [hfc, hc1, hnc]
      exact iff_of_false Bool.false_ne_true hg
  · intro hnc
    unfold hunterItShape
    rw [if_neg (by simp [hnc])]
    rcases hcall : hunterSearchCall env st with ⟨result, st₁⟩
    dsimp only
    have hc1 : st₁.cache = st.cache := by
      have h := (hunterSearchCall_frame env st).2.2.2.1
      rw [hcall] at h
      exact h
    by_cases hg : (((result.map HunterBody.emails).getD []).foldl
        (processHunterEntry name "IT") st₁).hunterExh = false ∨
        ((result.map HunterBody.emails).getD []) ≠ []
    · unfold hunterMark
      have hk : ("hunter|" ++ domain ++ "|" ++ "it" : String) =
          "hunter|" ++ domain ++ "|it" := by
        rw [String.append_assoc]
        rfl
      rw [if_pos hg, hk]
      exact iff_of_true (SearchCache.is_done_mark_done_self _ _) hg
    · unfold hunterMark
      rw [if_neg hg]
      have hfc : ((((result.map HunterBody.emails).getD []).foldl
          (processHunterEntry name "IT") st₁)).cache = st₁.cache :=
        foldl_cache_eq _ _ (fun s a => (processHunterEntry_spec name "IT" s a).2.2.1) st₁
      rw [hfc, hc1, hnc]
      exact iff_of_false Bool.false_ne_true hg
  · intro hnc hex
    unfold hunterHrShape
    rw [if_neg (by simp [hnc]), if_pos hex]
    rcases hcall : hunterSearchCall env st with ⟨result, st₁⟩
    dsimp only
    have hc1 : st₁.cache = st.cache := by
      have h := (hunterSearchCall_frame env st).2.2.2.1
      rw [hcall] at h
      exact h
    by_cases hg : (((result.map HunterBody.emails).getD []).foldl
        (processHunterEntry name "HR/Recruiting") st₁).hunterExh = false ∨
        ((result.map HunterBody.emails).getD []) ≠ []
    · unfold hunterMark
      have hk : ("hunter|" ++ domain ++ "|" ++ "hr" : String) =
          "hunter|" ++ domain ++ "|hr" := by
        rw [String.append_assoc]
        rfl
      rw [if_pos hg, hk]
      exact iff_of_true (SearchCache.is_done_mark_done_self _ _) hg
    · unfold hunterMark
      rw [if_neg hg]
      have hfc : ((((result.map HunterBody.emails).getD []).foldl
          (processHunterEntry name "HR/Recruiting") st₁)).cache = st₁.cache :=
        foldl_cache_eq _ _ (fun s a => (processHunterEntry_spec name "HR/Recruiting" s a).2.2.1) st₁
      rw [hfc, hc1, hnc]
      exact iff_of_false Bool.false_ne_true hg
  · intro hnc hex
    unfold hunterMgmtShape
    rw [if_neg (by simp [hnc]), if_pos hex]
    rcases hcall : hunterSearchCall env st with ⟨result, st₁⟩
    dsimp only
    have hc1 : st₁.cache = st.cache := by
      have h := (hunterSearchCall_frame env st).2.2.2.1
      rw [hcall] at h
      exact h
    by_cases hg : (((result.map HunterBody.emails).getD []).foldl
        (processHunterEntry name "Management") st₁).hunterExh = false ∨
        ((result.map HunterBody.emails).getD []) ≠ []
    · unfold hunterMark
      have hk : ("hunter|" ++ domain ++ "|" ++ "management" : String) =
          "hunter|" ++ domain ++ "|management" := by
        rw [String.append_assoc]
        rfl
      rw [if_pos hg, hk]
      exact iff_of_true (SearchCache.is_done_mark_done_self _ _) hg
    · unfold hunterMark
      rw [if_neg hg]
      have hfc : ((((result.map HunterBody.emails).getD []).foldl
          (processHunterEntry name "Management") st₁)).cache = st₁.cache :=
        foldl_cache_eq _ _ (fun s a => (processHunterEntry_spec name "Management" s a).2.2.1) st₁
      rw [hfc, hc1, hnc]
      exact iff_of_false Bool.false_ne_true hg

/-- Witness for the amended C1: with a fresh cache and a live pool, a
narrow-title search that completes successfully gets its identifier marked
done, by the first conjunct of the amended guard characterization. -/
theorem c1_mark_done_guard_amended_witness :
    (apolloTitlesShape
        ⟨fun _ _ => HttpOutcome.status 200 (some ⟨[]⟩),
          fun _ _ => HttpOutcome.netErr, fun _ _ => HttpOutcome.netErr⟩
        true "Accenture" "accenture.com"
        ⟨[], ∅, ∅, ⟨∅, none⟩, some ⟨"Apollo", ["k1"], ∅, 0⟩, none,
          0, 0, 0, 0, 0, 0, []⟩).cache.is_done
      ("apollo_search|" ++ "accenture.com" ++ "|titles") = true :=
  ((c1_mark_done_guard_amended
      ⟨fun _ _ => HttpOutcome.status 200 (some ⟨[]⟩),
        fun _ _ => HttpOutcome.netErr, fun _ _ => HttpOutcome.netErr⟩
      true "Accenture" "accenture.com"
      ⟨[], ∅, ∅, ⟨∅, none⟩, some ⟨"Apollo", ["k1"], ∅, 0⟩, none,
        0, 0, 0, 0, 0, 0, []⟩).1 (by decide)).mpr (Or.inl (by decide))

set_option maxRecDepth 100000 in
/-- C1 counterexample: a broad Apollo search that returns one person, whose
enrichment calls exhaust the pool, appends one contact yet leaves the broad
Search Identifier unmarked, because line 758 tests only pool exhaustion and
ignores whether results were returned. This refutes the stated iff for the
broad shape. -/
theorem c1_broad_shape_counterexample :
    (apolloBroadShape
        ⟨fun _ _ => HttpOutcome.status 200 (some ⟨[⟨"Ann", "Bee", "Recruiter", "", ""⟩]⟩),
          fun _ _ => HttpOutcome.status 429 none, fun _ _ => HttpOutcome.netErr⟩
        true "Accenture" "accenture.com"
        ⟨[], ∅, ∅, ⟨∅, none⟩, some ⟨"Apollo", ["k1"], ∅, 0⟩, none,
          0, 0, 0, 0, 0, 0, []⟩).contacts.length = 1 ∧
    (apolloBroadShape
        ⟨fun _ _ => HttpOutcome.status 200 (some ⟨[⟨"Ann", "Bee", "Recruiter", "", ""⟩]⟩),
          fun _ _ => HttpOutcome.status 429 none, fun _ _ => HttpOutcome.netErr⟩
        true "Accenture" "accenture.com"
        ⟨[], ∅, ∅, ⟨∅, none⟩, some ⟨"Apollo", ["k1"], ∅, 0⟩, none,
          0, 0, 0, 0, 0, 0, []⟩).cache.is_done
      ("apollo_search|" ++ "accenture.com" ++ "|broad") = false := by
  refine ⟨?_, ?_⟩
  · decide
  · decide
